import Mathlib

/-!
# Connection service of `roeboat` (`src/idf/main/tcp_server.c`)

A shallow embedding of `tcp_server_task`.  The task talks to its environment only
through socket calls and the diagnostic log, so it is embedded as a transition
system: a control location (the socket call the task is about to make), the
content of the static `rx_buffer`, and a step function that consumes the outcome
of that call and runs the C code up to the next call.  The environment is a list
of call outcomes; when it runs out the task is blocked in its pending call.
-/

namespace TcpServer

/-! ## Constants -/

/-- Listening port, `#define TCP_PORT 2000` (`include/tcp_server.h:8`). -/
def TCP_PORT : Nat := 2000

/-- Size of the static receive buffer, `#define BUFFER_SIZE 1024` (`include/tcp_server.h:9`). -/
def BUFFER_SIZE : Nat := 1024

/-- Address family `AF_INET` of `lwip/sockets.h`. -/
def AF_INET : Int := 2

/-- Socket type `SOCK_STREAM` of `lwip/sockets.h`. -/
def SOCK_STREAM : Int := 1

/-- Protocol `IPPROTO_IP` of `lwip/sockets.h`. -/
def IPPROTO_IP : Int := 0

/-- Option level `SOL_SOCKET` of `lwip/sockets.h`. -/
def SOL_SOCKET : Int := 0xfff

/-- Option name `SO_REUSEADDR` of `lwip/sockets.h`. -/
def SO_REUSEADDR : Int := 0x0004

/-- Wildcard address `INADDR_ANY` of `lwip/inet.h`. -/
def INADDR_ANY : Nat := 0

/-! ## Data model -/

/-- The fields of `struct sockaddr_in` that `tcp_server_task` sets (lines 25-28).  The
port and address are kept in host order; `htons`/`htonl` only change the byte order. -/
structure sockaddr_in where
  sin_family : Int
  sin_port : Nat
  sin_addr : Nat
deriving DecidableEq, Repr

/-- The static `char rx_buffer[BUFFER_SIZE]` (line 11): exactly `BUFFER_SIZE` bytes. -/
structure Buffer where
  bytes : List Nat
  size_eq : bytes.length = BUFFER_SIZE
deriving DecidableEq

/-- A socket call as issued by the task, with its arguments. -/
inductive Call where
  | socket (domain type protocol : Int)
  | setsockopt (fd level optname optval : Int)
  | bind (fd : Int) (addr : sockaddr_in)
  | listen (fd backlog : Int)
  | accept (fd : Int)
  | recv (fd : Int) (len : Nat) (flags : Int)
  | shutdown (fd how : Int)
  | close (fd : Int)
deriving DecidableEq, Repr

/-- What the environment answers to one call: the return value and, for `recv`, the
bytes it stored at the start of the buffer it was given. -/
structure Outcome where
  ret : Int
  data : List Nat
deriving DecidableEq, Repr

/-- The log statements of `tcp_server_task`, one constructor per `ESP_LOGx` line.  The
`errno` and address arguments are diagnostic values of the environment and are left out;
`received` keeps both arguments of line 80: `len` and the buffer `%s` reads from. -/
inductive LogMsg where
  | unable_to_create_socket
  | socket_created
  | unable_to_bind
  | socket_bound (port : Nat)
  | listen_error
  | socket_listening
  | unable_to_accept
  | socket_accepted
  | recv_error
  | connection_closed
  | received (len : Int) (rx_buffer : Buffer)
  | closing_socket
deriving DecidableEq

/-- One observable event of an execution. -/
inductive Event where
  /-- A call that returned with the given outcome. -/
  | call (c : Call) (o : Outcome)
  /-- A call that was issued and has not returned. -/
  | blocked (c : Call)
  /-- A log statement. -/
  | log (m : LogMsg)
  /-- The store `rx_buffer[index] = 0` of line 79 fell outside the array. -/
  | fault (index : Int)
  /-- The task deleted itself. -/
  | vTaskDelete
deriving DecidableEq

/-- Control location: the call the task is about to make (or is blocked in). -/
inductive Pc where
  /-- Line 31, `socket(...)`. -/
  | socket
  /-- Line 39, `setsockopt(listen_sock, ...)`. -/
  | setsockopt (listen_sock : Int)
  /-- Line 43, `bind(listen_sock, ...)`. -/
  | bind (listen_sock : Int)
  /-- Line 50, `listen(listen_sock, 1)`. -/
  | listen (listen_sock : Int)
  /-- Line 61, `accept(listen_sock, ...)`. -/
  | accept (listen_sock : Int)
  /-- Line 71, `recv(sock, rx_buffer, ...)`. -/
  | recv (listen_sock sock : Int)
  /-- Line 89, `shutdown(sock, 0)`. -/
  | shutdown (listen_sock sock : Int)
  /-- Line 90, `close(sock)`. -/
  | close (listen_sock sock : Int)
  /-- Line 95, `close(listen_sock)` after the label `CLEAN_UP`. -/
  | cleanup (listen_sock : Int)
  /-- After `vTaskDelete(NULL)`. -/
  | deleted
deriving DecidableEq

/-- State of the task: control location and content of the static `rx_buffer`. -/
structure Config where
  pc : Pc
  rx_buffer : Buffer

/-! ## Operations -/

/-- The buffer of a freshly loaded program: static storage is zero-initialised. -/
def Buffer.zero : Buffer := ⟨List.replicate BUFFER_SIZE 0, by simp⟩

/-- A buffer that holds the byte `x` everywhere. -/
def Buffer.fill (x : Nat) : Buffer := ⟨List.replicate BUFFER_SIZE x, by simp⟩

/-- Effect of `recv` on the buffer it is given: the delivered bytes overwrite the
buffer from index 0; the rest of the buffer is left as it was. -/
def Buffer.store (b : Buffer) (data : List Nat) : Buffer :=
  ⟨(data ++ b.bytes.drop data.length).take BUFFER_SIZE, by
    have h := b.size_eq
    simp only [List.length_take, List.length_append, List.length_drop]
    omega⟩

/-- The store `rx_buffer[i] = 0`.  For an index outside the array the store does not land
in `rx_buffer`, whose content is then unchanged. -/
def Buffer.terminate (b : Buffer) (i : Nat) : Buffer :=
  ⟨b.bytes.set i 0, by simp [b.size_eq]⟩

/-- The bytes `rx_buffer[0 .. len)`. -/
def Buffer.span (b : Buffer) (len : Int) : List Nat :=
  b.bytes.take len.toNat

/-- What `%s` prints for the buffer: the bytes before the first zero byte. -/
def Buffer.cstr (b : Buffer) : List Nat :=
  b.bytes.takeWhile (fun x => x != 0)

/-- The `dest_addr` built on lines 25-28. -/
def dest_addr : sockaddr_in :=
  { sin_family := AF_INET, sin_port := TCP_PORT, sin_addr := INADDR_ANY }

/-- The call the task makes at a control location. -/
def pendingCall : Pc → Option Call
  | .socket => some (.socket AF_INET SOCK_STREAM IPPROTO_IP)
  | .setsockopt listen_sock => some (.setsockopt listen_sock SOL_SOCKET SO_REUSEADDR 1)
  | .bind listen_sock => some (.bind listen_sock dest_addr)
  | .listen listen_sock => some (.listen listen_sock 1)
  | .accept listen_sock => some (.accept listen_sock)
  | .recv _ sock => some (.recv sock (BUFFER_SIZE - 1) 0)
  | .shutdown _ sock => some (.shutdown sock 0)
  | .close _ sock => some (.close sock)
  | .cleanup listen_sock => some (.close listen_sock)
  | .deleted => none

/-- What the store `rx_buffer[len] = 0` of line 79 shows to an observer: nothing when the
index is inside the array, a `fault` when it is outside.  The code itself tests nothing
here. -/
def storeEvents (len : Int) : List Event :=
  if len < BUFFER_SIZE then [] else [.fault len]

/-- Lines 87-92: the code after the inner loop, up to the next call.  `evs` are the
events of the loop exit. -/
def afterInnerLoop (listen_sock sock : Int) (buf : Buffer) (evs : List Event) :
    Config × List Event :=
  if sock ≠ -1 then
    (⟨.shutdown listen_sock sock, buf⟩, evs ++ [.log .closing_socket])
  else
    (⟨.accept listen_sock, buf⟩, evs ++ [.log .socket_listening])

/-- One step of `tcp_server_task`: the pending call returns with outcome `o` and the
code runs up to the next call.  Returns the new state and the events produced. -/
def step (c : Config) (o : Outcome) : Config × List Event :=
  match c.pc with
  | .socket =>
    -- lines 31-36
    let listen_sock := o.ret
    if listen_sock < 0 then
      (⟨.deleted, c.rx_buffer⟩,
        [.call (.socket AF_INET SOCK_STREAM IPPROTO_IP) o, .log .unable_to_create_socket,
          .vTaskDelete])
    else
      (⟨.setsockopt listen_sock, c.rx_buffer⟩, [.call (.socket AF_INET SOCK_STREAM IPPROTO_IP) o])
  | .setsockopt listen_sock =>
    -- lines 38-41, the return value is not looked at
    (⟨.bind listen_sock, c.rx_buffer⟩,
      [.call (.setsockopt listen_sock SOL_SOCKET SO_REUSEADDR 1) o, .log .socket_created])
  | .bind listen_sock =>
    -- lines 43-48
    let err := o.ret
    if err ≠ 0 then
      (⟨.cleanup listen_sock, c.rx_buffer⟩,
        [.call (.bind listen_sock dest_addr) o, .log .unable_to_bind])
    else
      (⟨.listen listen_sock, c.rx_buffer⟩,
        [.call (.bind listen_sock dest_addr) o, .log (.socket_bound TCP_PORT)])
  | .listen listen_sock =>
    -- lines 50-57
    let err := o.ret
    if err ≠ 0 then
      (⟨.cleanup listen_sock, c.rx_buffer⟩,
        [.call (.listen listen_sock 1) o, .log .listen_error])
    else
      (⟨.accept listen_sock, c.rx_buffer⟩,
        [.call (.listen listen_sock 1) o, .log .socket_listening])
  | .accept listen_sock =>
    -- lines 61-68
    let sock := o.ret
    if sock < 0 then
      (⟨.cleanup listen_sock, c.rx_buffer⟩,
        [.call (.accept listen_sock) o, .log .unable_to_accept])
    else
      (⟨.recv listen_sock sock, c.rx_buffer⟩,
        [.call (.accept listen_sock) o, .log .socket_accepted])
  | .recv listen_sock sock =>
    -- lines 71-85
    let len := o.ret
    let buf := c.rx_buffer.store o.data
    if len < 0 then
      afterInnerLoop listen_sock sock buf
        [.call (.recv sock (BUFFER_SIZE - 1) 0) o, .log .recv_error]
    else if len = 0 then
      afterInnerLoop listen_sock sock buf
        [.call (.recv sock (BUFFER_SIZE - 1) 0) o, .log .connection_closed]
    else
      -- lines 79-80, for every positive `len`
      let buf := buf.terminate len.toNat
      (⟨.recv listen_sock sock, buf⟩,
        [.call (.recv sock (BUFFER_SIZE - 1) 0) o] ++ storeEvents len ++
          [.log (.received len buf)])
  | .shutdown listen_sock sock =>
    -- line 89, the return value is not looked at
    (⟨.close listen_sock sock, c.rx_buffer⟩, [.call (.shutdown sock 0) o])
  | .close listen_sock sock =>
    -- line 90, the return value is not looked at; back to line 57
    (⟨.accept listen_sock, c.rx_buffer⟩, [.call (.close sock) o, .log .socket_listening])
  | .cleanup listen_sock =>
    -- lines 95-96
    (⟨.deleted, c.rx_buffer⟩, [.call (.close listen_sock) o, .vTaskDelete])
  | .deleted => (c, [])

/-- The state after the environment has answered with the outcomes of `script`. -/
def final (c : Config) : List Outcome → Config
  | [] => c
  | o :: os => final (step c o).1 os

/-- The events of the steps taken while consuming `script`. -/
def events (c : Config) : List Outcome → List Event
  | [] => []
  | o :: os => (step c o).2 ++ events (step c o).1 os

/-- The call the task is left blocked in, if any. -/
def pendingEvents (pc : Pc) : List Event :=
  match pendingCall pc with
  | some call => [.blocked call]
  | none => []

/-- The trace of an execution from state `c` against the outcomes `script`. -/
def run (c : Config) (script : List Outcome) : List Event :=
  events c script ++ pendingEvents (final c script).pc

/-- Trace of `tcp_server_task` (lines 20-97) started with the given content of the
static `rx_buffer`, against the socket-call outcomes `script`. -/
def tcp_server_task (rx_buffer : Buffer) (script : List Outcome) : List Event :=
  run ⟨.socket, rx_buffer⟩ script

/-! ## Observations on traces -/

/-- The call of an event that is a call, returned or not. -/
def callOf : Event → Option Call
  | .call c _ => some c
  | .blocked c => some c
  | _ => none

/-- The calls the task issued, in order. -/
def calls (tr : List Event) : List Call :=
  tr.filterMap callOf

/-- An `accept` that returned a connection socket (line 62: not `sock < 0`). -/
def accepted : Event → Bool
  | .call (.accept _) o => decide (0 ≤ o.ret)
  | _ => false

/-- An `accept` call, returned or not. -/
def isAcceptEvent : Event → Bool
  | .call (.accept _) _ => true
  | .blocked (.accept _) => true
  | _ => false

/-- The observations `f` picks from a trace, each tagged with the ordinal of the
connection it belongs to (the number of connections accepted so far, starting from `n`). -/
def tagged {α : Type} (f : Event → Option α) : Nat → List Event → List (Nat × α)
  | _, [] => []
  | n, e :: es =>
    let m := if accepted e then n + 1 else n
    match f e with
    | some a => (m, a) :: tagged f m es
    | none => tagged f m es

/-- The bytes delivered by a read of positive length. -/
def delivered : Event → Option (List Nat)
  | .call (.recv _ _ _) o => if 0 < o.ret then some o.data else none
  | _ => none

/-- The span `rx_buffer[0 .. len)` handed to the log statement of line 80. -/
def emittedSpan : Event → Option (List Nat)
  | .log (.received len b) => some (b.span len)
  | _ => none

/-- The text the log statement of line 80 prints for `%s`. -/
def emittedText : Event → Option (List Nat)
  | .log (.received _ b) => some b.cstr
  | _ => none

/-- Everything the log statement of line 80 shows of a chunk: the count printed for
`%d`, the span `rx_buffer[0 .. len)` and the text printed for `%s`. -/
def emitted : Event → Option (Int × List Nat × List Nat)
  | .log (.received len b) => some (len, b.span len, b.cstr)
  | _ => none

/-- The outcome of a read of positive length. -/
def positiveRead : Event → Option Outcome
  | .call (.recv _ _ _) o => if 0 < o.ret then some o else none
  | _ => none

/-- The count and the text printed by the log statement of line 80. -/
def receivedLog : Event → Option (Int × List Nat)
  | .log (.received len b) => some (len, b.cstr)
  | _ => none

/-- Concatenation, in emission order, of the byte lists `f` picks in connection `k`. -/
def connBytes (f : Event → Option (List Nat)) (k : Nat) (tr : List Event) : List Nat :=
  (((tagged f 0 tr).filter (fun p => p.1 == k)).map Prod.snd).flatten

/-- What the log statement of line 80 shows for a read that stored exactly the bytes it
reports: the count, the bytes, and the bytes before the first zero byte. -/
def chunkOf (o : Outcome) : Int × List Nat × List Nat :=
  (o.ret, o.data, o.data.takeWhile (fun x => x != 0))

/-- Connection sockets open after an event: `accept` opens the one it returns, `close`
closes the one it is given. -/
def connStep (conns : List Int) : Event → List Int
  | .call (.accept _) o => if 0 ≤ o.ret then o.ret :: conns else conns
  | .call (.close fd) _ => conns.erase fd
  | _ => conns

/-- Connection sockets open after a sequence of events. -/
def openConns (tr : List Event) : List Int :=
  tr.foldl connStep []

/-- Walks a trace with the list of open connection sockets and checks that at most one
is open at every point and none is open when an `accept` is issued. -/
def serialized : List Int → List Event → Bool
  | conns, [] => decide (conns.length ≤ 1)
  | conns, e :: es =>
    decide (conns.length ≤ 1) && (!isAcceptEvent e || conns.isEmpty) &&
      serialized (connStep conns e) es

/-- Descriptor bookkeeping: the descriptors obtained and not yet closed, and the
descriptors `close` was called on while they were not open. -/
structure FdState where
  opened : List Int
  badCloses : List Int
deriving DecidableEq

/-- Effect of an event on the descriptor bookkeeping: `socket` and `accept` obtain the
descriptor they return when it is not negative, `close` releases the one it is given. -/
def fdStep (s : FdState) : Event → FdState
  | .call (.socket _ _ _) o => if 0 ≤ o.ret then { s with opened := o.ret :: s.opened } else s
  | .call (.accept _) o => if 0 ≤ o.ret then { s with opened := o.ret :: s.opened } else s
  | .call (.close fd) _ =>
    if fd ∈ s.opened then { s with opened := s.opened.erase fd }
    else { s with badCloses := fd :: s.badCloses }
  | _ => s

/-- A `socket` or `accept` call that returned the descriptor `fd` (not negative). -/
def obtains (fd : Int) : Event → Bool
  | .call (.socket _ _ _) o => decide (0 ≤ o.ret) && decide (o.ret = fd)
  | .call (.accept _) o => decide (0 ≤ o.ret) && decide (o.ret = fd)
  | _ => false

/-- A `close` call on the descriptor `fd` that returned. -/
def closes (fd : Int) : Event → Bool
  | .call (.close fd1) _ => decide (fd1 = fd)
  | _ => false

/-- Descriptor bookkeeping after a sequence of events. -/
def fdState (tr : List Event) : FdState :=
  tr.foldl fdStep ⟨[], []⟩

/-- The events after a call that failed fatally: the listening socket is closed and the
task deletes itself, or the task is still blocked in that `close`. -/
def fatalTail (listen_sock : Int) : List Outcome → List Event
  | [] => [.blocked (.close listen_sock)]
  | oc :: _ => [.call (.close listen_sock) oc, .vTaskDelete]

/-! ## Invariants of the control locations -/

/-- The connection sockets that are open at a control location: the socket of the
connection inside the read loop and its teardown, none elsewhere. -/
def ConnInv (pc : Pc) (conns : List Int) : Prop :=
  match pc with
  | .recv _ sock => conns = [sock] ∧ 0 ≤ sock
  | .shutdown _ sock => conns = [sock] ∧ 0 ≤ sock
  | .close _ sock => conns = [sock] ∧ 0 ≤ sock
  | _ => conns = []

/-- The descriptor bookkeeping that goes with a control location. -/
def FdInv (pc : Pc) (s : FdState) : Prop :=
  match pc with
  | .socket => s = ⟨[], []⟩
  | .setsockopt l => s = ⟨[l], []⟩
  | .bind l => s = ⟨[l], []⟩
  | .listen l => s = ⟨[l], []⟩
  | .accept l => s = ⟨[l], []⟩
  | .recv l sock => s = ⟨[sock, l], []⟩ ∧ 0 ≤ sock
  | .shutdown l sock => s = ⟨[sock, l], []⟩ ∧ 0 ≤ sock
  | .close l sock => s = ⟨[sock, l], []⟩ ∧ 0 ≤ sock
  | .cleanup l => s = ⟨[l], []⟩
  | .deleted => s = ⟨[], []⟩

/-- The control locations once the listening socket `l` exists; a connection socket
that is being read or torn down is not negative. -/
def LoopInv (l : Int) (pc : Pc) : Prop :=
  match pc with
  | .socket => False
  | .setsockopt l1 => l1 = l
  | .bind l1 => l1 = l
  | .listen l1 => l1 = l
  | .accept l1 => l1 = l
  | .recv l1 sock => l1 = l ∧ 0 ≤ sock
  | .shutdown l1 sock => l1 = l ∧ 0 ≤ sock
  | .close l1 sock => l1 = l ∧ 0 ≤ sock
  | .cleanup l1 => l1 = l
  | .deleted => True

/-- The calls of the accept-and-receive loop on the listening socket `l`: `accept` on
`l`, `recv`, `shutdown` and `close`; no `socket`, `setsockopt`, `bind` or `listen`. -/
def LaterCall (l : Int) (cl : Call) : Prop :=
  match cl with
  | .accept fd => fd = l
  | .recv _ _ _ => True
  | .shutdown _ _ => True
  | .close _ => True
  | _ => False

/-- The control locations of the setup, before the first `accept`. -/
def Pc.isSetup : Pc → Bool
  | .socket => true
  | .setsockopt _ => true
  | .bind _ => true
  | .listen _ => true
  | _ => false

/-- The events from a `recv` that returned `o` with `o.ret ≤ 0` up to the next `accept`:
the log of the loop exit, then `shutdown` and `close` of the connection socket. -/
def teardown (sock : Int) (n : Nat) (fl : Int) (o o1 o2 : Outcome) : List Event :=
  [.call (.recv sock n fl) o, .log (if o.ret < 0 then .recv_error else .connection_closed),
    .log .closing_socket, .call (.shutdown sock 0) o1, .call (.close sock) o2,
    .log .socket_listening]

/-! ## Assumptions on the environment and sample executions -/

/-- A `recv` that returned no more than the number of bytes it was asked for. -/
def recvWithinRequest : Event → Bool
  | .call (.recv _ n _) o => decide (o.ret ≤ n)
  | _ => true

/-- A `recv` whose positive return value is the number of bytes it stored. -/
def recvDelivers : Event → Bool
  | .call (.recv _ _ _) o => decide (0 < o.ret → (o.data.length : Int) = o.ret)
  | _ => true

/-- A read that stored exactly the bytes it reports and returned no more than the
`BUFFER_SIZE - 1` bytes every `recv` of the task asks for. -/
def readOk (o : Outcome) : Bool :=
  decide ((o.data.length : Int) = o.ret) && decide (o.ret ≤ ((BUFFER_SIZE - 1 : Nat) : Int))

/-- A read that stored no zero byte. -/
def readNoZero (o : Outcome) : Bool :=
  decide (0 ∉ o.data)

/-- The observations of connection `k` among tagged observations. -/
def ofConn {α : Type} (k : Nat) (l : List (Nat × α)) : List (Nat × α) :=
  l.filter (fun p => p.1 == k)

/-- A read and the chunk emitted for it: they belong to the same connection, and the
chunk is what the log statement shows for the read when the read is as `recv` promises. -/
def ChunkOfRead (r : Nat × Outcome) (c : Nat × (Int × List Nat × List Nat)) : Prop :=
  r.1 = c.1 ∧ (readOk r.2 = true → c.2 = chunkOf r.2)

/-- Outcomes of a successful setup: `socket` returns descriptor 3, then `setsockopt`,
`bind` and `listen` return 0. -/
def setupOk : List Outcome :=
  [⟨3, []⟩, ⟨0, []⟩, ⟨0, []⟩, ⟨0, []⟩]

/-- A client connects (descriptor 4), sends the six bytes `$GP,\r\n`, and closes. -/
def clientSession : List Outcome :=
  [⟨4, []⟩, ⟨6, [36, 71, 80, 44, 13, 10]⟩, ⟨0, []⟩, ⟨0, []⟩, ⟨0, []⟩]

/-- A client connects (descriptor 4) and sends the three bytes `A`, zero, `B`. -/
def zeroByteSession : List Outcome :=
  [⟨4, []⟩, ⟨3, [65, 0, 66]⟩]

/-- A first client (descriptor 4) sends the three bytes `A`, zero, `B` and closes; a
second client (descriptor 5) sends the byte `Z`. -/
def zeroThenCleanSession : List Outcome :=
  [⟨4, []⟩, ⟨3, [65, 0, 66]⟩, ⟨0, []⟩, ⟨0, []⟩, ⟨0, []⟩, ⟨5, []⟩, ⟨1, [90]⟩]

/-- A first client (descriptor 4) sends six bytes, then two bytes, and closes; a second
client (descriptor 5) sends one byte. -/
def reuseSession : List Outcome :=
  [⟨4, []⟩, ⟨6, [36, 71, 80, 44, 13, 10]⟩, ⟨2, [72, 73]⟩, ⟨0, []⟩, ⟨0, []⟩, ⟨0, []⟩,
    ⟨5, []⟩, ⟨1, [90]⟩]

/-- The next `accept` fails with -1; the `close` of the listening socket returns 0. -/
def acceptFails : List Outcome :=
  [⟨-1, []⟩, ⟨0, []⟩]

/-! ## Basic facts about runs -/

theorem events_append (c : Config) (a b : List Outcome) :
    events c (a ++ b) = events c a ++ events (final c a) b := by
  induction a generalizing c with
  | nil => simp [events, final]
  | cons o os ih => simp [events, final, ih]

theorem final_append (c : Config) (a b : List Outcome) :
    final c (a ++ b) = final (final c a) b := by
  induction a generalizing c with
  | nil => simp [final]
  | cons o os ih => simp [final, ih]

theorem run_cons (c : Config) (o : Outcome) (os : List Outcome) :
    run c (o :: os) = (step c o).2 ++ run (step c o).1 os := by
  simp [run, events, final]

theorem run_append (c : Config) (a b : List Outcome) :
    run c (a ++ b) = events c a ++ run (final c a) b := by
  simp [run, events_append, final_append]

theorem mem_run_cases {c : Config} {script : List Outcome} {e : Event}
    (h : e ∈ run c script) :
    (∃ c1 o, e ∈ (step c1 o).2 ∧ ∀ e1, e1 ∈ (step c1 o).2 → e1 ∈ run c script) ∨
      ∃ pc cl, pendingCall pc = some cl ∧ e = Event.blocked cl := by
  induction script generalizing c with
  | nil =>
    right
    simp only [run, events, final, List.nil_append, pendingEvents] at h
    split at h
    · next cl hcl => exact ⟨_, cl, hcl, by simpa using h⟩
    · simp at h
  | cons o os ih =>
    rw [run_cons] at h ⊢
    rcases List.mem_append.1 h with h1 | h2
    · exact Or.inl ⟨c, o, h1, fun e1 he1 => List.mem_append_left _ he1⟩
    · rcases ih h2 with ⟨c1, o1, hm, hs⟩ | hb
      · exact Or.inl ⟨c1, o1, hm, fun e1 he1 => List.mem_append_right _ (hs e1 he1)⟩
      · exact Or.inr hb

theorem step_received {c : Config} {o : Outcome} {len : Int} {b : Buffer}
    (h : Event.log (.received len b) ∈ (step c o).2) :
    (∃ sock, Event.call (.recv sock (BUFFER_SIZE - 1) 0) o ∈ (step c o).2) ∧
      len = o.ret ∧ 0 < len ∧
      b = (c.rx_buffer.store o.data).terminate len.toNat := by
  obtain ⟨pc, buf⟩ := c
  cases pc <;> simp only [step, afterInnerLoop, storeEvents] at h ⊢ <;>
    (try split_ifs at h ⊢) <;> simp at h ⊢
  all_goals
    obtain ⟨rfl, rfl⟩ := h
    exact ⟨rfl, by omega, rfl⟩

theorem step_fault {c : Config} {o : Outcome} {idx : Int}
    (h : Event.fault idx ∈ (step c o).2) :
    (∃ sock, Event.call (.recv sock (BUFFER_SIZE - 1) 0) o ∈ (step c o).2) ∧
      ¬ o.ret < BUFFER_SIZE := by
  obtain ⟨pc, buf⟩ := c
  cases pc <;> simp only [step, afterInnerLoop, storeEvents] at h ⊢ <;>
    (try split_ifs at h ⊢) <;> simp at h ⊢
  omega

theorem step_recv_call {c : Config} {o o1 : Outcome} {fd : Int} {n : Nat} {fl : Int}
    (h : Event.call (.recv fd n fl) o1 ∈ (step c o).2) :
    n = BUFFER_SIZE - 1 ∧ fl = 0 ∧ o1 = o := by
  obtain ⟨pc, buf⟩ := c
  cases pc <;> simp only [step, afterInnerLoop, storeEvents] at h ⊢ <;>
    (try split_ifs at h ⊢) <;> simp at h ⊢
  all_goals simp [h]

theorem step_not_blocked {c : Config} {o : Outcome} {cl : Call} :
    Event.blocked cl ∉ (step c o).2 := by
  obtain ⟨pc, buf⟩ := c
  cases pc <;> simp only [step, afterInnerLoop, storeEvents] <;> (try split_ifs) <;> simp

/-! ## Facts about the buffer -/

theorem takeWhile_length_le (l : List Nat) (i : Nat) (h : l[i]? = some 0) :
    (l.takeWhile (fun x => x != 0)).length ≤ i := by
  induction l generalizing i with
  | nil => simp at h
  | cons x xs ih =>
    cases i with
    | zero =>
      simp at h
      simp [List.takeWhile, h]
    | succ j =>
      simp at h
      by_cases hx : x = 0
      · simp [List.takeWhile, hx]
      · have hb : (x != 0) = true := by simpa using hx
        have := ih j h
        simp only [List.takeWhile, hb, List.length_cons]
        omega

theorem takeWhile_terminated (l : List Nat) (i : Nat) (h : l[i]? = some 0) :
    l[(l.takeWhile (fun x => x != 0)).length]? = some 0 := by
  induction l generalizing i with
  | nil => simp at h
  | cons x xs ih =>
    by_cases hx : x = 0
    · simp [List.takeWhile, hx]
    · cases i with
      | zero =>
        simp at h
        exact absurd h hx
      | succ j =>
        simp at h
        have hb : (x != 0) = true := by simpa using hx
        simpa [List.takeWhile, hb] using ih j h

theorem terminate_get (b : Buffer) (i : Nat) (h : i < BUFFER_SIZE) :
    (b.terminate i).bytes[i]? = some 0 := by
  have := b.size_eq
  simp [Buffer.terminate, List.getElem?_set_self, this, h]

/-! ## Bounded chunks and the receive buffer -/

theorem chunk_bounds (buf : Buffer) (data : List Nat) (len : Int) (hpos : 0 < len)
    (hle : len ≤ 1023) :
    len.toNat < BUFFER_SIZE ∧ ((buf.store data).terminate len.toNat).bytes[len.toNat]? = some 0 ∧
      (((buf.store data).terminate len.toNat).span len).length ≤ 1023 ∧
      ((buf.store data).terminate len.toNat).cstr.length ≤ 1023 := by
  have hB : BUFFER_SIZE = 1024 := rfl
  have hn : len.toNat < BUFFER_SIZE := by
    have : (len.toNat : Int) = len := Int.toNat_of_nonneg (le_of_lt hpos)
    omega
  have hz := terminate_get (buf.store data) len.toNat hn
  have hc := takeWhile_length_le _ len.toNat hz
  refine ⟨hn, hz, ?_, ?_⟩
  · simp only [Buffer.span, List.length_take]
    omega
  · simp only [Buffer.cstr]
    omega

/-- C2 (bounded chunk size): every `recv` the task issues asks for `BUFFER_SIZE - 1 = 1023`
bytes, and every chunk the task emits (line 80) belongs to a `recv` of that size that
returned its positive length `len`.  When that `recv` returned no more than it was asked
for, `len` is at most 1023, and so are the span `rx_buffer[0 .. len)` and the text
printed for `%s`; so in an execution where every `recv` does, every emitted chunk has at
most 1023 bytes. -/
theorem C2_bounded_chunk_size (rx_buffer : Buffer) (script : List Outcome) :
    (BUFFER_SIZE - 1 = 1023 ∧
      ∀ fd n fl, Call.recv fd n fl ∈ calls (tcp_server_task rx_buffer script) →
        n = BUFFER_SIZE - 1) ∧
    (∀ len b, Event.log (.received len b) ∈ tcp_server_task rx_buffer script →
      ∃ sock o, Event.call (.recv sock 1023 0) o ∈ tcp_server_task rx_buffer script ∧
        o.ret = len ∧ 0 < len ∧
        (recvWithinRequest (.call (.recv sock 1023 0) o) = true →
          len ≤ 1023 ∧ (b.span len).length ≤ 1023 ∧ b.cstr.length ≤ 1023)) ∧
    ((∀ e ∈ tcp_server_task rx_buffer script, recvWithinRequest e = true) →
      ∀ len b, Event.log (.received len b) ∈ tcp_server_task rx_buffer script →
        0 < len ∧ len ≤ 1023 ∧ (b.span len).length ≤ 1023 ∧ b.cstr.length ≤ 1023) := by
  have hlocal : ∀ len b, Event.log (.received len b) ∈ tcp_server_task rx_buffer script →
      ∃ sock o, Event.call (.recv sock 1023 0) o ∈ tcp_server_task rx_buffer script ∧
        o.ret = len ∧ 0 < len ∧
        (recvWithinRequest (.call (.recv sock 1023 0) o) = true →
          len ≤ 1023 ∧ (b.span len).length ≤ 1023 ∧ b.cstr.length ≤ 1023) := by
    intro len b h
    rcases mem_run_cases h with ⟨c1, o, hm, hs⟩ | ⟨pc, cl, -, hb⟩
    · obtain ⟨⟨sock, hcall⟩, hlen, hpos, hb⟩ := step_received hm
      refine ⟨sock, o, hs _ hcall, hlen.symm, hpos, fun hw => ?_⟩
      simp only [recvWithinRequest, decide_eq_true_eq] at hw
      have hle : len ≤ 1023 := by
        rw [hlen]
        exact_mod_cast hw
      have hcb := chunk_bounds c1.rx_buffer o.data len hpos hle
      rw [← hb] at hcb
      exact ⟨hle, hcb.2.2⟩
    · cases hb
  refine ⟨⟨rfl, ?_⟩, hlocal, ?_⟩
  · intro fd n fl h
    obtain ⟨e, he, hc⟩ := List.mem_filterMap.1 h
    rcases mem_run_cases he with ⟨c1, o, hm, -⟩ | ⟨pc, cl, hp, rfl⟩
    · cases e <;> simp [callOf] at hc
      · subst hc
        exact (step_recv_call hm).1
      · exact absurd hm step_not_blocked
    · simp [callOf] at hc
      subst hc
      cases pc <;> simp [pendingCall] at hp
      exact hp.2.1.symm
  · intro hall len b h
    obtain ⟨sock, o, hcall, -, hpos, himp⟩ := hlocal len b h
    exact ⟨hpos, himp (hall _ hcall)⟩

set_option maxRecDepth 100000 in
/-- Witness for C2: the `recv` call and the chunk of the sample client session. -/
theorem C2_bounded_chunk_size_witness :
    (Call.recv 4 1023 0 ∈ calls (tcp_server_task Buffer.zero (setupOk ++ clientSession)) ∧
      1023 = BUFFER_SIZE - 1) ∧
    (∀ e ∈ tcp_server_task Buffer.zero (setupOk ++ clientSession),
      recvWithinRequest e = true) ∧
    Event.log (.received 6 ((Buffer.zero.store [36, 71, 80, 44, 13, 10]).terminate 6)) ∈
        tcp_server_task Buffer.zero (setupOk ++ clientSession) ∧
      (0 : Int) < 6 ∧ (6 : Int) ≤ 1023 ∧
      (((Buffer.zero.store [36, 71, 80, 44, 13, 10]).terminate 6).span 6).length ≤ 1023 ∧
      ((Buffer.zero.store [36, 71, 80, 44, 13, 10]).terminate 6).cstr.length ≤ 1023 :=
  have hc : Call.recv 4 1023 0 ∈
      calls (tcp_server_task Buffer.zero (setupOk ++ clientSession)) := by decide
  have hw : ∀ e ∈ tcp_server_task Buffer.zero (setupOk ++ clientSession),
      recvWithinRequest e = true := by decide
  have h : Event.log (.received 6 ((Buffer.zero.store [36, 71, 80, 44, 13, 10]).terminate 6)) ∈
      tcp_server_task Buffer.zero (setupOk ++ clientSession) := by decide
  ⟨⟨hc, (C2_bounded_chunk_size Buffer.zero (setupOk ++ clientSession)).1.2 4 1023 0 hc⟩,
    hw, h, (C2_bounded_chunk_size Buffer.zero (setupOk ++ clientSession)).2.2 hw _ _ h⟩

/-- C8 (receive-buffer bound): if every `recv` returns at most the number of bytes it was
asked for, no store `rx_buffer[len] = 0` falls outside the array, and at every emission
the buffer holds `len ≤ 1023` data bytes, the terminator sits at index `len < 1024`, and
the buffer is a zero-terminated string of length at most 1023. -/
theorem C8_receive_buffer_bound (rx_buffer : Buffer) (script : List Outcome)
    (hrecv : ∀ e ∈ tcp_server_task rx_buffer script, recvWithinRequest e = true) :
    (∀ idx, Event.fault idx ∉ tcp_server_task rx_buffer script) ∧
    ∀ len b, Event.log (.received len b) ∈ tcp_server_task rx_buffer script →
      0 < len ∧ len ≤ 1023 ∧ len.toNat < BUFFER_SIZE ∧ b.bytes[len.toNat]? = some 0 ∧
      b.cstr.length ≤ 1023 ∧ b.bytes[b.cstr.length]? = some 0 := by
  have hB : (BUFFER_SIZE : Int) = 1024 := rfl
  have hB1 : BUFFER_SIZE = 1024 := rfl
  constructor
  · intro idx h
    rcases mem_run_cases h with ⟨c1, o, hm, hs⟩ | ⟨pc, cl, -, hb⟩
    · obtain ⟨⟨sock, hcall⟩, hge⟩ := step_fault hm
      have := hrecv _ (hs _ hcall)
      simp only [recvWithinRequest, decide_eq_true_eq] at this
      have h2 : ((BUFFER_SIZE - 1 : Nat) : Int) = 1023 := rfl
      omega
    · cases hb
  · intro len b h
    rcases mem_run_cases h with ⟨c1, o, hm, hs⟩ | ⟨pc, cl, -, hb⟩
    · obtain ⟨⟨sock, hcall⟩, hlen, hpos, hb⟩ := step_received hm
      have hw := hrecv _ (hs _ hcall)
      simp only [recvWithinRequest, decide_eq_true_eq] at hw
      have hle : len ≤ 1023 := by
        rw [hlen]
        exact_mod_cast hw
      have hcb := chunk_bounds c1.rx_buffer o.data len hpos hle
      rw [← hb] at hcb
      exact ⟨hpos, hle, hcb.1, hcb.2.1, hcb.2.2.2, takeWhile_terminated b.bytes len.toNat hcb.2.1⟩
    · cases hb

set_option maxRecDepth 100000 in
/-- Witness for C8: the sample client session. -/
theorem C8_receive_buffer_bound_witness :
    (∀ e ∈ tcp_server_task Buffer.zero (setupOk ++ clientSession), recvWithinRequest e = true) ∧
    (∀ idx, Event.fault idx ∉ tcp_server_task Buffer.zero (setupOk ++ clientSession)) ∧
    ∀ len b, Event.log (.received len b) ∈ tcp_server_task Buffer.zero (setupOk ++ clientSession) →
      0 < len ∧ len ≤ 1023 ∧ len.toNat < BUFFER_SIZE ∧ b.bytes[len.toNat]? = some 0 ∧
      b.cstr.length ≤ 1023 ∧ b.bytes[b.cstr.length]? = some 0 :=
  ⟨by decide, C8_receive_buffer_bound Buffer.zero (setupOk ++ clientSession) (by decide)⟩

/-! ## Emitted chunks -/

theorem store_terminate_bytes (b : Buffer) (d : List Nat) (h : d.length < BUFFER_SIZE) :
    ((b.store d).terminate d.length).bytes = d ++ 0 :: b.bytes.drop (d.length + 1) := by
  have hb := b.size_eq
  have h1 : (d ++ b.bytes.drop d.length).take BUFFER_SIZE = d ++ b.bytes.drop d.length := by
    apply List.take_of_length_le
    simp only [List.length_append, List.length_drop]
    omega
  have h2 : d.length < b.bytes.length := by omega
  simp only [Buffer.terminate, Buffer.store, h1, List.set_append, lt_self_iff_false, if_false,
    Nat.sub_self]
  rw [List.drop_eq_getElem_cons h2]
  rfl

theorem takeWhile_append_zero (d r : List Nat) :
    (d ++ 0 :: r).takeWhile (fun x => x != 0) = d.takeWhile (fun x => x != 0) := by
  induction d with
  | nil => simp [List.takeWhile]
  | cons x xs ih =>
    by_cases hx : x = 0
    · simp [List.takeWhile, hx]
    · have hb : (x != 0) = true := by simpa using hx
      simp [List.takeWhile, hb, ih]

theorem takeWhile_eq_self_iff_no_zero (d : List Nat) :
    d.takeWhile (fun x => x != 0) = d ↔ 0 ∉ d := by
  rw [List.takeWhile_eq_self_iff]
  constructor
  · intro h h0
    simpa using h 0 h0
  · intro h x hx
    have : x ≠ 0 := fun hx0 => h (hx0 ▸ hx)
    simpa using this

theorem emitted_chunk (b : Buffer) (o : Outcome) (hpos : 0 < o.ret)
    (hlen : (o.data.length : Int) = o.ret) (hlt : o.ret < BUFFER_SIZE) :
    emitted (.log (.received o.ret ((b.store o.data).terminate o.ret.toNat))) =
      some (chunkOf o) := by
  have hn : o.ret.toNat = o.data.length := by omega
  have hl : o.data.length < BUFFER_SIZE := by omega
  simp only [emitted, chunkOf, Buffer.span, Buffer.cstr, hn, store_terminate_bytes b o.data hl,
    takeWhile_append_zero, List.take_left]

theorem tagged_append {α : Type} (f : Event → Option α) (n : Nat) (a b : List Event) :
    tagged f n (a ++ b) = tagged f n a ++ tagged f (n + a.countP accepted) b := by
  induction a generalizing n with
  | nil => simp [tagged]
  | cons e es ih =>
    by_cases he : accepted e = true
    · cases hf : f e <;> simp [tagged, he, hf, ih, List.countP_cons] <;> congr 1 <;> omega
    · cases hf : f e <;> simp [tagged, he, hf, ih, List.countP_cons]

theorem tagged_map {α β : Type} (f : Event → Option α) (g : α → β) (n : Nat) (l : List Event) :
    tagged (fun e => (f e).map g) n l = (tagged f n l).map (fun p => (p.1, g p.2)) := by
  induction l generalizing n with
  | nil => simp [tagged]
  | cons e es ih =>
    cases hf : f e <;> simp [tagged, hf, ih]

theorem tagged_snd {α : Type} (f : Event → Option α) (n : Nat) (l : List Event) :
    (tagged f n l).map Prod.snd = l.filterMap f := by
  induction l generalizing n with
  | nil => simp [tagged]
  | cons e es ih =>
    cases hf : f e <;> simp [tagged, hf, ih, List.filterMap_cons]

theorem tagged_pending {α : Type} (f : Event → Option α) (hf : ∀ cl, f (.blocked cl) = none)
    (n : Nat) (pc : Pc) : tagged f n (pendingEvents pc) = [] := by
  unfold pendingEvents
  split <;> simp [tagged, hf]

/-- The tagged observations of one step, for the chunk and for the read. -/
theorem step_tagged (c : Config) (o : Outcome) (n : Nat)
    (hd : ∀ e ∈ (step c o).2, recvDelivers e = true)
    (hw : ∀ e ∈ (step c o).2, recvWithinRequest e = true) :
    tagged emitted n (step c o).2 =
      (tagged positiveRead n (step c o).2).map (fun p => (p.1, chunkOf p.2)) := by
  obtain ⟨pc, buf⟩ := c
  cases pc <;> simp only [step, afterInnerLoop, storeEvents] at hd hw ⊢ <;>
    (try split_ifs at hd hw ⊢) <;>
    simp [tagged, emitted, positiveRead, accepted, recvDelivers, recvWithinRequest] at hd hw ⊢
  all_goals
    have hB : ((BUFFER_SIZE - 1 : Nat) : Int) = 1023 := rfl
    have hB1 : (BUFFER_SIZE : Int) = 1024 := rfl
  all_goals first
    | (exfalso; omega)
    | (have hn : ¬ 0 < o.ret := by omega
       simp [hn])
    | (have hpos : 0 < o.ret := by omega
       have hlen : (o.data.length : Int) = o.ret := by omega
       have hch := emitted_chunk buf o hpos hlen (by omega)
       simp only [emitted, Option.some.injEq] at hch
       simp [hpos, hch])

theorem run_nil (c : Config) : run c [] = pendingEvents c.pc := by
  simp [run, events, final]

theorem run_tagged (c : Config) (script : List Outcome) (n : Nat)
    (hd : ∀ e ∈ run c script, recvDelivers e = true)
    (hw : ∀ e ∈ run c script, recvWithinRequest e = true) :
    tagged emitted n (run c script) =
      (tagged positiveRead n (run c script)).map (fun p => (p.1, chunkOf p.2)) := by
  induction script generalizing c n with
  | nil =>
    rw [run_nil, tagged_pending _ (fun _ => rfl), tagged_pending _ (fun _ => rfl)]
    rfl
  | cons o os ih =>
    rw [run_cons] at hd hw ⊢
    rw [tagged_append, tagged_append, List.map_append,
      step_tagged c o n (fun e he => hd e (List.mem_append_left _ he))
        (fun e he => hw e (List.mem_append_left _ he)),
      ih _ _ (fun e he => hd e (List.mem_append_right _ he))
        (fun e he => hw e (List.mem_append_right _ he))]

theorem emittedSpan_eq : emittedSpan = fun e => (emitted e).map (fun t => t.2.1) := by
  funext e
  rcases e with _ | _ | m | _ | _ <;> try rfl
  cases m <;> rfl

theorem emittedText_eq : emittedText = fun e => (emitted e).map (fun t => t.2.2) := by
  funext e
  rcases e with _ | _ | m | _ | _ <;> try rfl
  cases m <;> rfl

theorem receivedLog_eq : receivedLog = fun e => (emitted e).map (fun t => (t.1, t.2.2)) := by
  funext e
  rcases e with _ | _ | m | _ | _ <;> try rfl
  cases m <;> rfl

theorem delivered_eq : delivered = fun e => (positiveRead e).map (fun o => o.data) := by
  funext e
  rcases e with ⟨cl, o⟩ | _ | _ | _ | _ <;> try rfl
  cases cl <;> simp only [delivered, positiveRead] <;> try rfl
  split <;> rfl

theorem mem_positiveRead {tr : List Event} {o : Outcome} (h : o ∈ tr.filterMap positiveRead) :
    ∃ fd n fl, Event.call (.recv fd n fl) o ∈ tr ∧ 0 < o.ret := by
  obtain ⟨e, he, hp⟩ := List.mem_filterMap.1 h
  rcases e with ⟨cl, o1⟩ | _ | _ | _ | _ <;> simp [positiveRead] at hp
  cases cl <;> simp at hp
  obtain ⟨hpos, rfl⟩ := hp
  exact ⟨_, _, _, he, hpos⟩

/-! ## Chunk fidelity, connection by connection -/

theorem step_chunkOfRead (c : Config) (o : Outcome) (n : Nat) :
    List.Forall₂ ChunkOfRead (tagged positiveRead n (step c o).2)
      (tagged emitted n (step c o).2) := by
  obtain ⟨pc, buf⟩ := c
  cases pc <;> simp only [step, afterInnerLoop, storeEvents] <;> (try split_ifs) <;>
    simp [tagged, emitted, positiveRead, accepted]
  all_goals first
    | (have hn : ¬ 0 < o.ret := by omega
       simp [hn])
    | (have hpos : 0 < o.ret := by omega
       simp only [hpos, if_true]
       refine List.Forall₂.cons ⟨rfl, fun hok => ?_⟩ List.Forall₂.nil
       simp only [readOk, Bool.and_eq_true, decide_eq_true_eq] at hok
       have hB : ((BUFFER_SIZE - 1 : Nat) : Int) = 1023 := rfl
       have hB1 : (BUFFER_SIZE : Int) = 1024 := rfl
       have hch := emitted_chunk buf o hpos hok.1 (by omega)
       simpa [emitted] using hch)

theorem run_chunkOfRead (c : Config) (script : List Outcome) (n : Nat) :
    List.Forall₂ ChunkOfRead (tagged positiveRead n (run c script))
      (tagged emitted n (run c script)) := by
  induction script generalizing c n with
  | nil =>
    rw [run_nil, tagged_pending _ (fun _ => rfl), tagged_pending _ (fun _ => rfl)]
    exact List.Forall₂.nil
  | cons o os ih =>
    rw [run_cons, tagged_append, tagged_append]
    exact List.rel_append (step_chunkOfRead c o n) (ih _ _)

theorem ofConn_chunkOfRead (k : Nat) {l1 : List (Nat × Outcome)}
    {l2 : List (Nat × (Int × List Nat × List Nat))} (h : List.Forall₂ ChunkOfRead l1 l2) :
    List.Forall₂ ChunkOfRead (ofConn k l1) (ofConn k l2) := by
  induction h with
  | nil => exact List.Forall₂.nil
  | @cons a b t1 t2 hab _ ih =>
    have htag : a.1 = b.1 := hab.1
    by_cases hk : a.1 = k
    · have hk2 : b.1 = k := htag ▸ hk
      simp only [ofConn, List.filter_cons, hk, hk2, beq_self_eq_true, if_true]
      exact List.Forall₂.cons hab ih
    · have hk2 : ¬ b.1 = k := htag ▸ hk
      have e1 : (a.1 == k) = false := by simpa using hk
      have e2 : (b.1 == k) = false := by simpa using hk2
      simp only [ofConn, List.filter_cons, e1, e2, Bool.false_eq_true, if_false]
      exact ih

theorem chunks_of_reads {l1 : List (Nat × Outcome)}
    {l2 : List (Nat × (Int × List Nat × List Nat))} (h : List.Forall₂ ChunkOfRead l1 l2)
    (hok : ∀ p ∈ l1, readOk p.2 = true) :
    l2 = l1.map (fun p => (p.1, chunkOf p.2)) := by
  induction h with
  | nil => rfl
  | @cons a b t1 t2 hab _ ih =>
    have h1 := hab.2 (hok a (List.mem_cons_self _ _))
    have h2 := ih (fun p hp => hok p (List.mem_cons_of_mem _ hp))
    have hb : b = (a.1, chunkOf a.2) := by
      rw [hab.1, ← h1]
    rw [List.map_cons, ← h2, hb]

theorem ofConn_map {α β : Type} (k : Nat) (g : α → β) (l : List (Nat × α)) :
    ofConn k (l.map (fun p => (p.1, g p.2))) = (ofConn k l).map (fun p => (p.1, g p.2)) := by
  simp only [ofConn, List.filter_map]
  rfl

theorem mem_ofConn {α : Type} {k : Nat} {l : List (Nat × α)} {p : Nat × α} :
    p ∈ ofConn k l ↔ p ∈ l ∧ p.1 = k := by
  simp [ofConn]

theorem takeWhile_length_le_self (d : List Nat) :
    (d.takeWhile (fun x => x != 0)).length ≤ d.length := by
  induction d with
  | nil => simp
  | cons x xs ih =>
    by_cases hx : x = 0
    · simp [List.takeWhile, hx]
    · have hb : (x != 0) = true := by simpa using hx
      simp only [List.takeWhile, hb, List.length_cons]
      omega

theorem takeWhile_length_lt (d : List Nat) (h : 0 ∈ d) :
    (d.takeWhile (fun x => x != 0)).length < d.length := by
  induction d with
  | nil => simp at h
  | cons x xs ih =>
    by_cases hx : x = 0
    · simp [List.takeWhile, hx]
    · have hb : (x != 0) = true := by simpa using hx
      have hmem : 0 ∈ xs := by
        rcases List.mem_cons.1 h with h0 | h0
        · exact absurd h0.symm hx
        · exact h0
      have := ih hmem
      simp only [List.takeWhile, hb, List.length_cons]
      omega

theorem texts_length_le (l : List (Nat × Outcome)) :
    ((l.map (fun p => (p.2.data.takeWhile (fun x => x != 0)))).flatten).length ≤
      ((l.map (fun p => p.2.data)).flatten).length := by
  induction l with
  | nil => simp
  | cons a t ih =>
    have := takeWhile_length_le_self a.2.data
    simp only [List.map_cons, List.flatten_cons, List.length_append]
    omega

theorem texts_length_lt (l : List (Nat × Outcome)) (h : ∃ p ∈ l, 0 ∈ p.2.data) :
    ((l.map (fun p => (p.2.data.takeWhile (fun x => x != 0)))).flatten).length <
      ((l.map (fun p => p.2.data)).flatten).length := by
  induction l with
  | nil =>
    obtain ⟨p, hp, -⟩ := h
    simp at hp
  | cons a t ih =>
    obtain ⟨p, hp, h0⟩ := h
    simp only [List.map_cons, List.flatten_cons, List.length_append]
    rcases List.mem_cons.1 hp with rfl | hp
    · have h1 := takeWhile_length_lt p.2.data h0
      have h2 := texts_length_le t
      omega
    · have h1 := takeWhile_length_le_self a.2.data
      have h2 := ih ⟨p, hp, h0⟩
      omega

/-- C1 (chunk fidelity), as amended: for every connection `k` whose reads of positive
length each stored exactly the bytes they report and returned no more than the 1023
requested, the spans `rx_buffer[0 .. len)` handed to the log statement are, chunk by
chunk, the bytes those reads delivered; and the chunks the task emits for that
connection (the texts printed for `%s`) concatenate to the bytes delivered on it if and
only if no byte delivered on that connection is zero, in which case they are the
delivered bytes chunk by chunk.  Other connections do not matter. -/
theorem C1_chunk_fidelity (rx_buffer : Buffer) (script : List Outcome) (k : Nat)
    (hok : ∀ p ∈ tagged positiveRead 0 (tcp_server_task rx_buffer script),
      p.1 = k → readOk p.2 = true) :
    (ofConn k (tagged emittedSpan 0 (tcp_server_task rx_buffer script)) =
        ofConn k (tagged delivered 0 (tcp_server_task rx_buffer script)) ∧
      connBytes emittedSpan k (tcp_server_task rx_buffer script) =
        connBytes delivered k (tcp_server_task rx_buffer script)) ∧
    ((∀ p ∈ tagged positiveRead 0 (tcp_server_task rx_buffer script),
        p.1 = k → readNoZero p.2 = true) →
      ofConn k (tagged emittedText 0 (tcp_server_task rx_buffer script)) =
        ofConn k (tagged delivered 0 (tcp_server_task rx_buffer script))) ∧
    (connBytes emittedText k (tcp_server_task rx_buffer script) =
        connBytes delivered k (tcp_server_task rx_buffer script) ↔
      ∀ p ∈ tagged positiveRead 0 (tcp_server_task rx_buffer script),
        p.1 = k → readNoZero p.2 = true) := by
  have hall : List.Forall₂ ChunkOfRead (tagged positiveRead 0 (tcp_server_task rx_buffer script))
      (tagged emitted 0 (tcp_server_task rx_buffer script)) :=
    run_chunkOfRead ⟨.socket, rx_buffer⟩ script 0
  have hk : ofConn k (tagged emitted 0 (tcp_server_task rx_buffer script)) =
      (ofConn k (tagged positiveRead 0 (tcp_server_task rx_buffer script))).map
        (fun p => (p.1, chunkOf p.2)) :=
    chunks_of_reads (ofConn_chunkOfRead k hall)
      (fun p hp => hok p (mem_ofConn.1 hp).1 (mem_ofConn.1 hp).2)
  have hspan : ofConn k (tagged emittedSpan 0 (tcp_server_task rx_buffer script)) =
      ofConn k (tagged delivered 0 (tcp_server_task rx_buffer script)) := by
    rw [emittedSpan_eq, delivered_eq, tagged_map, tagged_map,
      ofConn_map k (fun t : Int × List Nat × List Nat => t.2.1),
      ofConn_map k (fun o : Outcome => o.data), hk, List.map_map]
    rfl
  have htext : ofConn k (tagged emittedText 0 (tcp_server_task rx_buffer script)) =
      (ofConn k (tagged positiveRead 0 (tcp_server_task rx_buffer script))).map
        (fun p => (p.1, p.2.data.takeWhile (fun x => x != 0))) := by
    rw [emittedText_eq, tagged_map,
      ofConn_map k (fun t : Int × List Nat × List Nat => t.2.2), hk, List.map_map]
    rfl
  have hdel : ofConn k (tagged delivered 0 (tcp_server_task rx_buffer script)) =
      (ofConn k (tagged positiveRead 0 (tcp_server_task rx_buffer script))).map
        (fun p => (p.1, p.2.data)) := by
    rw [delivered_eq, tagged_map, ofConn_map k (fun o : Outcome => o.data)]
  have hzero : (∀ p ∈ tagged positiveRead 0 (tcp_server_task rx_buffer script),
        p.1 = k → readNoZero p.2 = true) →
      ofConn k (tagged emittedText 0 (tcp_server_task rx_buffer script)) =
        ofConn k (tagged delivered 0 (tcp_server_task rx_buffer script)) := by
    intro hz
    rw [htext, hdel]
    apply List.map_congr_left
    intro p hp
    have h0 := hz p (mem_ofConn.1 hp).1 (mem_ofConn.1 hp).2
    simp only [readNoZero, decide_eq_true_eq] at h0
    rw [(takeWhile_eq_self_iff_no_zero _).2 h0]
  refine ⟨⟨hspan, ?_⟩, hzero, ?_, ?_⟩
  · show ((ofConn k _).map Prod.snd).flatten = ((ofConn k _).map Prod.snd).flatten
    rw [hspan]
  · intro heq p hp hpk
    by_contra hnz
    have h0 : 0 ∈ p.2.data := by
      simpa [readNoZero] using hnz
    have hlt := texts_length_lt (ofConn k (tagged positiveRead 0
      (tcp_server_task rx_buffer script))) ⟨p, mem_ofConn.2 ⟨hp, hpk⟩, h0⟩
    have heq2 : ((ofConn k (tagged emittedText 0 (tcp_server_task rx_buffer script))).map
        Prod.snd).flatten =
        ((ofConn k (tagged delivered 0 (tcp_server_task rx_buffer script))).map
          Prod.snd).flatten := heq
    rw [htext, hdel, List.map_map, List.map_map] at heq2
    have heq3 : ((ofConn k (tagged positiveRead 0 (tcp_server_task rx_buffer script))).map
        (fun p => p.2.data.takeWhile (fun x => x != 0))).flatten =
        ((ofConn k (tagged positiveRead 0 (tcp_server_task rx_buffer script))).map
          (fun p => p.2.data)).flatten := heq2
    have hlen := congrArg List.length heq3
    omega
  · intro hz
    show ((ofConn k _).map Prod.snd).flatten = ((ofConn k _).map Prod.snd).flatten
    rw [hzero hz]

set_option maxRecDepth 100000 in
/-- Witness for C1: the first client sends `A`, zero, `B`, the second sends `Z`.  For the
second connection the emitted chunks are the delivered bytes; for the first they are
not. -/
theorem C1_chunk_fidelity_witness :
    (∀ p ∈ tagged positiveRead 0 (tcp_server_task Buffer.zero (setupOk ++ zeroThenCleanSession)),
      p.1 = 2 → readOk p.2 = true) ∧
    (∀ p ∈ tagged positiveRead 0 (tcp_server_task Buffer.zero (setupOk ++ zeroThenCleanSession)),
      p.1 = 2 → readNoZero p.2 = true) ∧
    connBytes emittedSpan 2 (tcp_server_task Buffer.zero (setupOk ++ zeroThenCleanSession)) =
      connBytes delivered 2 (tcp_server_task Buffer.zero (setupOk ++ zeroThenCleanSession)) ∧
    connBytes emittedText 2 (tcp_server_task Buffer.zero (setupOk ++ zeroThenCleanSession)) =
      connBytes delivered 2 (tcp_server_task Buffer.zero (setupOk ++ zeroThenCleanSession)) ∧
    connBytes delivered 2 (tcp_server_task Buffer.zero (setupOk ++ zeroThenCleanSession)) =
      [90] ∧
    connBytes emittedText 1 (tcp_server_task Buffer.zero (setupOk ++ zeroThenCleanSession)) ≠
      connBytes delivered 1 (tcp_server_task Buffer.zero (setupOk ++ zeroThenCleanSession)) :=
  have hok : ∀ p ∈ tagged positiveRead 0
      (tcp_server_task Buffer.zero (setupOk ++ zeroThenCleanSession)),
      p.1 = 2 → readOk p.2 = true := by decide
  have hz : ∀ p ∈ tagged positiveRead 0
      (tcp_server_task Buffer.zero (setupOk ++ zeroThenCleanSession)),
      p.1 = 2 → readNoZero p.2 = true := by decide
  have hok1 : ∀ p ∈ tagged positiveRead 0
      (tcp_server_task Buffer.zero (setupOk ++ zeroThenCleanSession)),
      p.1 = 1 → readOk p.2 = true := by decide
  ⟨hok, hz, (C1_chunk_fidelity Buffer.zero (setupOk ++ zeroThenCleanSession) 2 hok).1.2,
    (C1_chunk_fidelity Buffer.zero (setupOk ++ zeroThenCleanSession) 2 hok).2.2.2 hz,
    by decide,
    fun heq => absurd
      ((C1_chunk_fidelity Buffer.zero (setupOk ++ zeroThenCleanSession) 1 hok1).2.2.1 heq)
      (by decide)⟩

set_option maxRecDepth 100000 in
/-- C1, counterexample to the claim as stated: a client sends the three bytes `A`, zero,
`B` in one read that returns 3 (no read error); the chunk the task emits is the text `A`,
so the emitted chunks do not concatenate to the delivered bytes. -/
theorem C1_counterexample :
    (∀ e ∈ tcp_server_task Buffer.zero (setupOk ++ zeroByteSession), recvDelivers e = true) ∧
    (∀ e ∈ tcp_server_task Buffer.zero (setupOk ++ zeroByteSession),
      recvWithinRequest e = true) ∧
    (tcp_server_task Buffer.zero (setupOk ++ zeroByteSession)).filterMap positiveRead =
      [⟨3, [65, 0, 66]⟩] ∧
    connBytes delivered 1 (tcp_server_task Buffer.zero (setupOk ++ zeroByteSession)) =
      [65, 0, 66] ∧
    connBytes emittedText 1 (tcp_server_task Buffer.zero (setupOk ++ zeroByteSession)) = [65] ∧
    connBytes emittedText 1 (tcp_server_task Buffer.zero (setupOk ++ zeroByteSession)) ≠
      connBytes delivered 1 (tcp_server_task Buffer.zero (setupOk ++ zeroByteSession)) := by
  decide

/-- C10 (text emission of a chunk): when every read of positive length stored exactly the
bytes it reports and no more than requested, the log statements of line 80 correspond, in
order, to the reads of positive length; each prints the count `len` the read returned and,
for `%s`, the received bytes before their first zero byte, which is the whole chunk if
and only if the chunk has no zero byte. -/
theorem C10_text_emission (rx_buffer : Buffer) (script : List Outcome)
    (hd : ∀ e ∈ tcp_server_task rx_buffer script, recvDelivers e = true)
    (hw : ∀ e ∈ tcp_server_task rx_buffer script, recvWithinRequest e = true) :
    (tcp_server_task rx_buffer script).filterMap receivedLog =
        ((tcp_server_task rx_buffer script).filterMap positiveRead).map
          (fun o => (o.ret, o.data.takeWhile (fun x => x != 0))) ∧
      ∀ o ∈ (tcp_server_task rx_buffer script).filterMap positiveRead,
        (o.data.length : Int) = o.ret ∧
        (o.data.takeWhile (fun x => x != 0) = o.data ↔ 0 ∉ o.data) := by
  have h : tagged emitted 0 (tcp_server_task rx_buffer script) =
      (tagged positiveRead 0 (tcp_server_task rx_buffer script)).map
        (fun p => (p.1, chunkOf p.2)) := run_tagged ⟨.socket, rx_buffer⟩ script 0 hd hw
  constructor
  · rw [← tagged_snd receivedLog 0, ← tagged_snd positiveRead 0, receivedLog_eq, tagged_map, h,
      List.map_map, List.map_map, List.map_map]
    rfl
  · intro o ho
    obtain ⟨fd, n, fl, hcall, hpos⟩ := mem_positiveRead ho
    have h1 := hd _ hcall
    simp only [recvDelivers, decide_eq_true_eq] at h1
    exact ⟨h1 hpos, takeWhile_eq_self_iff_no_zero _⟩

set_option maxRecDepth 100000 in
/-- Witness for C10: the read of three bytes `A`, zero, `B` is logged
with count 3 and text `A`. -/
theorem C10_text_emission_witness :
    (∀ e ∈ tcp_server_task Buffer.zero (setupOk ++ zeroByteSession), recvDelivers e = true) ∧
    (∀ e ∈ tcp_server_task Buffer.zero (setupOk ++ zeroByteSession),
      recvWithinRequest e = true) ∧
    (tcp_server_task Buffer.zero (setupOk ++ zeroByteSession)).filterMap receivedLog =
      ((tcp_server_task Buffer.zero (setupOk ++ zeroByteSession)).filterMap positiveRead).map
        (fun o => (o.ret, o.data.takeWhile (fun x => x != 0))) ∧
    (tcp_server_task Buffer.zero (setupOk ++ zeroByteSession)).filterMap receivedLog =
      [(3, [65])] :=
  have hd : ∀ e ∈ tcp_server_task Buffer.zero (setupOk ++ zeroByteSession),
      recvDelivers e = true := by decide
  have hw : ∀ e ∈ tcp_server_task Buffer.zero (setupOk ++ zeroByteSession),
      recvWithinRequest e = true := by decide
  ⟨hd, hw, (C10_text_emission Buffer.zero (setupOk ++ zeroByteSession) hd hw).1, by decide⟩

theorem store_terminate_long (b : Buffer) (d : List Nat) (n : Nat)
    (hd : BUFFER_SIZE ≤ d.length) (hn : BUFFER_SIZE ≤ n) :
    ((b.store d).terminate n).bytes = d.take BUFFER_SIZE := by
  have hb := b.size_eq
  have h1 : (d ++ b.bytes.drop d.length).take BUFFER_SIZE = d.take BUFFER_SIZE :=
    List.take_append_of_le_length hd
  simp only [Buffer.terminate, Buffer.store, h1]
  apply List.set_eq_of_length_le
  simp only [List.length_take]
  omega

theorem emitted_indep (b1 b2 : Buffer) (o : Outcome) (hpos : 0 < o.ret)
    (hlen : (o.data.length : Int) = o.ret) :
    emitted (.log (.received o.ret ((b1.store o.data).terminate o.ret.toNat))) =
      emitted (.log (.received o.ret ((b2.store o.data).terminate o.ret.toNat))) := by
  by_cases hlt : o.ret < BUFFER_SIZE
  · rw [emitted_chunk b1 o hpos hlen hlt, emitted_chunk b2 o hpos hlen hlt]
  · have hd : BUFFER_SIZE ≤ o.data.length := by omega
    have hn : BUFFER_SIZE ≤ o.ret.toNat := by omega
    simp only [emitted, Buffer.span, Buffer.cstr, store_terminate_long b1 o.data _ hd hn,
      store_terminate_long b2 o.data _ hd hn]

theorem step_indep (c1 c2 : Config) (hpc : c1.pc = c2.pc) (o : Outcome)
    (hd : ∀ e ∈ (step c1 o).2, recvDelivers e = true) :
    (step c1 o).1.pc = (step c2 o).1.pc ∧
      (step c1 o).2.filterMap emitted = (step c2 o).2.filterMap emitted := by
  obtain ⟨pc, b1⟩ := c1
  obtain ⟨pc2, b2⟩ := c2
  simp only at hpc
  subst hpc
  cases pc <;> simp only [step, afterInnerLoop, storeEvents] at hd ⊢ <;>
    (try split_ifs at hd ⊢) <;> simp [emitted, recvDelivers] at hd ⊢
  all_goals
    have hpos : 0 < o.ret := by omega
    have hlen : (o.data.length : Int) = o.ret := by omega
    have hc := emitted_indep b1 b2 o hpos hlen
    simp only [emitted, Option.some.injEq, Prod.mk.injEq, true_and] at hc
    exact hc

theorem run_indep (c1 c2 : Config) (hpc : c1.pc = c2.pc) (script : List Outcome)
    (hd : ∀ e ∈ run c1 script, recvDelivers e = true) :
    (run c1 script).filterMap emitted = (run c2 script).filterMap emitted := by
  induction script generalizing c1 c2 with
  | nil => rw [run_nil, run_nil, hpc]
  | cons o os ih =>
    rw [run_cons] at hd ⊢
    rw [run_cons]
    have hs := step_indep c1 c2 hpc o (fun e he => hd e (List.mem_append_left _ he))
    rw [List.filterMap_append, List.filterMap_append, hs.2,
      ih _ _ hs.1 (fun e he => hd e (List.mem_append_right _ he))]

/-- C9 (no leakage from buffer reuse): when every read of positive length stored exactly
the bytes it reports, two executions that differ only in what `rx_buffer` held at the
start emit the same chunks (count, span and text); and, when the reads also return no
more than requested, every emitted chunk is determined by the outcome of its own read
alone: the bytes that read delivered, and as text those before the first zero byte. -/
theorem C9_no_leakage (b1 b2 : Buffer) (script : List Outcome)
    (hd : ∀ e ∈ tcp_server_task b1 script, recvDelivers e = true) :
    (tcp_server_task b1 script).filterMap emitted =
        (tcp_server_task b2 script).filterMap emitted ∧
      ((∀ e ∈ tcp_server_task b1 script, recvWithinRequest e = true) →
        (tcp_server_task b1 script).filterMap emitted =
          ((tcp_server_task b1 script).filterMap positiveRead).map chunkOf) := by
  refine ⟨run_indep ⟨.socket, b1⟩ ⟨.socket, b2⟩ rfl script hd, fun hw => ?_⟩
  have h : tagged emitted 0 (tcp_server_task b1 script) =
      (tagged positiveRead 0 (tcp_server_task b1 script)).map
        (fun p => (p.1, chunkOf p.2)) := run_tagged ⟨.socket, b1⟩ script 0 hd hw
  rw [← tagged_snd emitted 0, ← tagged_snd positiveRead 0, h, List.map_map, List.map_map]
  rfl

set_option maxRecDepth 100000 in
/-- Witness for C9: the same outcomes against a zeroed buffer and against a
buffer full of `0xFF`; the second read is shorter than the first, the third belongs to
a later connection. -/
theorem C9_no_leakage_witness :
    (∀ e ∈ tcp_server_task Buffer.zero (setupOk ++ reuseSession), recvDelivers e = true) ∧
    (tcp_server_task Buffer.zero (setupOk ++ reuseSession)).filterMap emitted =
      (tcp_server_task (Buffer.fill 255) (setupOk ++ reuseSession)).filterMap emitted ∧
    (tcp_server_task (Buffer.fill 255) (setupOk ++ reuseSession)).filterMap emitted =
      [(6, [36, 71, 80, 44, 13, 10], [36, 71, 80, 44, 13, 10]), (2, [72, 73], [72, 73]),
        (1, [90], [90])] :=
  have hd : ∀ e ∈ tcp_server_task Buffer.zero (setupOk ++ reuseSession),
      recvDelivers e = true := by decide
  ⟨hd, (C9_no_leakage Buffer.zero (Buffer.fill 255) (setupOk ++ reuseSession) hd).1, by decide⟩

/-! ## Serialization of connections -/

theorem serialized_length {m : List Int} {l : List Event} (h : serialized m l = true) :
    m.length ≤ 1 := by
  cases l with
  | nil => simpa [serialized] using h
  | cons e es =>
    simp only [serialized, Bool.and_eq_true, decide_eq_true_eq] at h
    exact h.1.1

theorem serialized_append (m : List Int) (a b : List Event) :
    serialized m (a ++ b) = (serialized m a && serialized (a.foldl connStep m) b) := by
  induction a generalizing m with
  | nil =>
    simp only [List.nil_append, List.foldl_nil]
    cases hb : serialized m b
    · simp
    · simp [serialized, serialized_length hb]
  | cons e es ih =>
    rw [List.cons_append]
    simp only [serialized, ih, List.foldl_cons, Bool.and_assoc]

theorem serialized_take {m : List Int} {l : List Event} (h : serialized m l = true) (k : Nat) :
    ((l.take k).foldl connStep m).length ≤ 1 ∧
      ∀ e, l[k]? = some e → isAcceptEvent e = true → (l.take k).foldl connStep m = [] := by
  induction l generalizing m k with
  | nil =>
    have := serialized_length h
    simp [this]
  | cons x xs ih =>
    have hm := serialized_length h
    simp only [serialized, Bool.and_eq_true, decide_eq_true_eq, Bool.or_eq_true,
      Bool.not_eq_true', List.isEmpty_iff] at h
    cases k with
    | zero =>
      refine ⟨by simpa using hm, fun e he hacc => ?_⟩
      simp only [List.getElem?_cons_zero, Option.some.injEq] at he
      subst he
      rcases h.1.2 with h1 | h1
      · rw [h1] at hacc
        cases hacc
      · simpa using h1
    | succ j =>
      simpa using ih h.2 j

theorem step_conn (c : Config) (o : Outcome) (conns : List Int) (h : ConnInv c.pc conns) :
    serialized conns (step c o).2 = true ∧
      ConnInv (step c o).1.pc ((step c o).2.foldl connStep conns) := by
  obtain ⟨pc, buf⟩ := c
  cases pc <;> simp only [ConnInv] at h <;> simp only [step, afterInnerLoop, storeEvents] <;>
    (try split_ifs) <;>
    simp_all [serialized, connStep, isAcceptEvent, ConnInv]
  split_ifs <;> simp

theorem run_serialized (c : Config) (script : List Outcome) (conns : List Int)
    (h : ConnInv c.pc conns) : serialized conns (run c script) = true := by
  induction script generalizing c conns with
  | nil =>
    obtain ⟨pc, buf⟩ := c
    rw [run_nil]
    cases pc <;> simp only [ConnInv] at h <;>
      simp_all [pendingEvents, pendingCall, serialized, connStep, isAcceptEvent]
  | cons o os ih =>
    rw [run_cons, serialized_append, (step_conn c o conns h).1, ih _ _ (step_conn c o conns h).2]
    rfl

theorem close_between (l : List Event) (m : List Int) (s : Int) (hs : s ∈ m)
    (hn : s ∉ l.foldl connStep m) : ∃ oc, Event.call (.close s) oc ∈ l := by
  induction l generalizing m with
  | nil => exact absurd hs hn
  | cons e es ih =>
    by_cases h : s ∈ connStep m e
    · obtain ⟨oc, hoc⟩ := ih _ h hn
      exact ⟨oc, List.mem_cons_of_mem _ hoc⟩
    · rcases e with ⟨cl, o⟩ | _ | _ | _ | _
      · cases cl with
        | accept fd =>
          simp only [connStep] at h
          split_ifs at h
          · exact absurd (List.mem_cons_of_mem _ hs) h
          · exact absurd hs h
        | close fd =>
          simp only [connStep] at h
          by_cases hfd : s = fd
          · subst hfd
            exact ⟨o, List.mem_cons_self _ _⟩
          · exact absurd ((List.mem_erase_of_ne hfd).2 hs) h
        | _ => exact absurd hs h
      all_goals exact absurd hs h

theorem closed_before_accept {tr : List Event} (h : serialized [] tr = true) {i k : Nat}
    {fd : Int} {o : Outcome} {e : Event} (hik : i < k)
    (hi : tr[i]? = some (.call (.accept fd) o)) (hpos : 0 ≤ o.ret)
    (hk : tr[k]? = some e) (hacc : isAcceptEvent e = true) :
    ∃ j oc, i < j ∧ j < k ∧ tr[j]? = some (.call (.close o.ret) oc) := by
  have hempty := (serialized_take h k).2 e hk hacc
  have hklt : k < tr.length := by
    by_contra hc
    rw [List.getElem?_eq_none (by omega)] at hk
    cases hk
  have hsplit : tr.take k = tr.take (i + 1) ++ (tr.take k).drop (i + 1) := by
    have h1 : tr.take (i + 1) = (tr.take k).take (i + 1) := by
      rw [List.take_take, Nat.min_eq_left (by omega)]
    rw [h1, List.take_append_drop]
  have hmem : o.ret ∈ (tr.take (i + 1)).foldl connStep [] := by
    rw [List.take_succ, hi, List.foldl_append]
    simp [connStep, hpos]
  rw [hsplit, List.foldl_append] at hempty
  obtain ⟨oc, hoc⟩ := close_between _ _ o.ret hmem (by rw [hempty]; simp)
  obtain ⟨j, hj⟩ := List.getElem?_of_mem hoc
  have hjlt : j < k - (i + 1) := by
    by_contra hc
    rw [List.getElem?_eq_none (by simp; omega)] at hj
    cases hj
  refine ⟨i + 1 + j, oc, by omega, by omega, ?_⟩
  rw [List.getElem?_drop, List.getElem?_take_of_lt (by omega)] at hj
  exact hj

/-- C3 (serialization): at every point `k` of every execution at most one accepted
connection socket is open; whenever the event at point `k` is an `accept` call (returned
or still blocked) no connection socket is open; and between an `accept` that returned a
connection socket and any later `accept` call that socket has been closed, so that no
`accept` is issued while a connection is being read. -/
theorem C3_serialization (rx_buffer : Buffer) (script : List Outcome) :
    (∀ k, (openConns ((tcp_server_task rx_buffer script).take k)).length ≤ 1) ∧
    (∀ (k : Nat) (e : Event),
      (tcp_server_task rx_buffer script)[k]? = some e → isAcceptEvent e = true →
      openConns ((tcp_server_task rx_buffer script).take k) = []) ∧
    (∀ (i k : Nat) (fd : Int) (o : Outcome) (e : Event), i < k →
      (tcp_server_task rx_buffer script)[i]? = some (.call (.accept fd) o) → 0 ≤ o.ret →
      (tcp_server_task rx_buffer script)[k]? = some e → isAcceptEvent e = true →
      ∃ j oc, i < j ∧ j < k ∧
        (tcp_server_task rx_buffer script)[j]? = some (.call (.close o.ret) oc)) := by
  have h : serialized [] (tcp_server_task rx_buffer script) = true :=
    run_serialized ⟨.socket, rx_buffer⟩ script [] rfl
  exact ⟨fun k => (serialized_take h k).1, fun k => (serialized_take h k).2,
    fun i k fd o e hik hi hpos hk hacc => closed_before_accept h hik hi hpos hk hacc⟩

set_option maxRecDepth 100000 in
/-- Witness for C3: in the sample execution with two clients the first
`accept` is event 7 and returns socket 4, the second `accept` is event 19; no connection
socket is open when it is issued, and socket 4 was closed in between. -/
theorem C3_serialization_witness :
    (tcp_server_task Buffer.zero (setupOk ++ reuseSession))[7]? =
        some (.call (.accept 3) ⟨4, []⟩) ∧
      (tcp_server_task Buffer.zero (setupOk ++ reuseSession))[19]? =
        some (.call (.accept 3) ⟨5, []⟩) ∧
      openConns ((tcp_server_task Buffer.zero (setupOk ++ reuseSession)).take 19) = [] ∧
      openConns ((tcp_server_task Buffer.zero (setupOk ++ reuseSession)).take 12) = [4] ∧
      ∃ j oc, 7 < j ∧ j < 19 ∧
        (tcp_server_task Buffer.zero (setupOk ++ reuseSession))[j]? =
          some (.call (.close 4) oc) :=
  have h7 : (tcp_server_task Buffer.zero (setupOk ++ reuseSession))[7]? =
      some (.call (.accept 3) ⟨4, []⟩) := by decide
  have h19 : (tcp_server_task Buffer.zero (setupOk ++ reuseSession))[19]? =
      some (.call (.accept 3) ⟨5, []⟩) := by decide
  ⟨h7, h19, (C3_serialization Buffer.zero (setupOk ++ reuseSession)).2.1 19 _ h19 rfl,
    by decide,
    (C3_serialization Buffer.zero (setupOk ++ reuseSession)).2.2 7 19 3 ⟨4, []⟩ _
      (by decide) h7 (by decide) h19 rfl⟩

/-! ## Descriptors -/

theorem final_deleted (buf : Buffer) (script : List Outcome) :
    final ⟨.deleted, buf⟩ script = ⟨.deleted, buf⟩ := by
  induction script with
  | nil => rfl
  | cons o os ih => simpa [final, step] using ih

theorem step_vTaskDelete {c : Config} {o : Outcome} (h : Event.vTaskDelete ∈ (step c o).2) :
    (step c o).1.pc = .deleted := by
  obtain ⟨pc, buf⟩ := c
  cases pc <;> simp only [step, afterInnerLoop, storeEvents] at h ⊢ <;> (try split_ifs at h ⊢) <;>
    simp at h ⊢

theorem events_vTaskDelete {c : Config} {script : List Outcome}
    (h : Event.vTaskDelete ∈ events c script) : (final c script).pc = .deleted := by
  induction script generalizing c with
  | nil => simp [events] at h
  | cons o os ih =>
    simp only [events, List.mem_append] at h
    simp only [final]
    rcases h with h | h
    · have hp := step_vTaskDelete h
      generalize (step c o).1 = c1 at hp
      obtain ⟨pc1, b1⟩ := c1
      simp only at hp
      subst hp
      rw [final_deleted]
    · exact ih h

theorem step_fd (c : Config) (o : Outcome) (s : FdState) (h : FdInv c.pc s) :
    FdInv (step c o).1.pc ((step c o).2.foldl fdStep s) := by
  obtain ⟨pc, buf⟩ := c
  cases pc <;> simp only [FdInv] at h <;> simp only [step, afterInnerLoop, storeEvents] <;>
    (try split_ifs) <;>
    simp_all [fdStep, FdInv]

theorem events_fd (c : Config) (script : List Outcome) (s : FdState) (h : FdInv c.pc s) :
    FdInv (final c script).pc ((events c script).foldl fdStep s) := by
  induction script generalizing c s with
  | nil => simpa [events, final] using h
  | cons o os ih =>
    simp only [events, final, List.foldl_append]
    exact ih _ _ (step_fd c o s h)

theorem fdStep_pending (s : FdState) (pc : Pc) : (pendingEvents pc).foldl fdStep s = s := by
  unfold pendingEvents
  split <;> simp [fdStep]

theorem fd_balance_step (s : FdState) (e : Event) (fd : Int) :
    (fdStep s e).opened.count fd + (if closes fd e = true then 1 else 0) +
        s.badCloses.count fd =
      s.opened.count fd + (if obtains fd e = true then 1 else 0) +
        (fdStep s e).badCloses.count fd := by
  rcases e with ⟨cl, o⟩ | _ | _ | _ | _
  · cases cl with
    | socket d t p =>
      simp only [fdStep, obtains, closes]
      by_cases h1 : o.ret = fd
      · subst h1
        by_cases h0 : 0 ≤ o.ret <;> simp [h0, List.count_cons]
      · by_cases h0 : 0 ≤ o.ret <;> simp [h0, h1, List.count_cons]
    | accept l1 =>
      simp only [fdStep, obtains, closes]
      by_cases h1 : o.ret = fd
      · subst h1
        by_cases h0 : 0 ≤ o.ret <;> simp [h0, List.count_cons]
      · by_cases h0 : 0 ≤ o.ret <;> simp [h0, h1, List.count_cons]
    | close fd1 =>
      simp only [fdStep, obtains, closes]
      by_cases h1 : fd1 = fd
      · subst h1
        by_cases hm : fd1 ∈ s.opened
        · have hpos : 0 < s.opened.count fd1 := List.count_pos_iff.2 hm
          simp only [hm, if_true, List.count_erase_self, decide_True, Bool.false_eq_true,
            if_false]
          omega
        · simp only [hm, if_false, List.count_cons, decide_True, beq_self_eq_true, if_true,
            Bool.false_eq_true]
          omega
      · by_cases hm : fd1 ∈ s.opened
        · simp [hm, h1, List.count_erase_of_ne (Ne.symm h1)]
        · simp [hm, h1, List.count_cons]
    | _ => simp [fdStep, obtains, closes]
  all_goals simp [fdStep, obtains, closes]

theorem fd_balance (l : List Event) (s : FdState) (fd : Int) :
    (l.foldl fdStep s).opened.count fd + l.countP (closes fd) + s.badCloses.count fd =
      s.opened.count fd + l.countP (obtains fd) + (l.foldl fdStep s).badCloses.count fd := by
  induction l generalizing s with
  | nil => simp
  | cons e es ih =>
    rw [List.foldl_cons, List.countP_cons, List.countP_cons]
    have h := ih (fdStep s e)
    have hs := fd_balance_step s e fd
    omega

/-- C7 (resource release): in every execution `close` is only ever called on a descriptor
that `socket` or `accept` returned and that is still open (never on one that was not
obtained, never twice), and when the task has terminated every descriptor obtained has
been closed: none is left open, and each descriptor has been closed exactly as often as
it was obtained. -/
theorem C7_resource_release (rx_buffer : Buffer) (script : List Outcome) :
    (fdState (tcp_server_task rx_buffer script)).badCloses = [] ∧
      (Event.vTaskDelete ∈ tcp_server_task rx_buffer script →
        (fdState (tcp_server_task rx_buffer script)).opened = [] ∧
        ∀ fd, (tcp_server_task rx_buffer script).countP (closes fd) =
          (tcp_server_task rx_buffer script).countP (obtains fd)) := by
  have hinv := events_fd ⟨.socket, rx_buffer⟩ script ⟨[], []⟩ rfl
  have hst : fdState (tcp_server_task rx_buffer script) =
      (events ⟨.socket, rx_buffer⟩ script).foldl fdStep ⟨[], []⟩ := by
    simp only [fdState, tcp_server_task, run, List.foldl_append, fdStep_pending]
  have hbad : (fdState (tcp_server_task rx_buffer script)).badCloses = [] := by
    rw [hst]
    generalize (final ⟨.socket, rx_buffer⟩ script).pc = pc at hinv
    cases pc <;> simp only [FdInv] at hinv <;> simp_all
  refine ⟨hbad, fun hv => ?_⟩
  have hfin : (final ⟨.socket, rx_buffer⟩ script).pc = .deleted := by
    simp only [tcp_server_task, run, List.mem_append] at hv
    rcases hv with hv | hv
    · exact events_vTaskDelete hv
    · unfold pendingEvents at hv
      split at hv <;> simp at hv
  rw [hfin] at hinv
  simp only [FdInv] at hinv
  have hopen : (fdState (tcp_server_task rx_buffer script)).opened = [] := by
    rw [hst, hinv]
  refine ⟨hopen, fun fd => ?_⟩
  have hb := fd_balance (tcp_server_task rx_buffer script) ⟨[], []⟩ fd
  have hopen1 : (List.foldl fdStep ⟨[], []⟩ (tcp_server_task rx_buffer script)).opened = [] :=
    hopen
  have hbad1 : (List.foldl fdStep ⟨[], []⟩ (tcp_server_task rx_buffer script)).badCloses = [] :=
    hbad
  rw [hopen1, hbad1] at hb
  simpa using hb

set_option maxRecDepth 100000 in
/-- Witness for C7: a client session, then `accept` fails and the task terminates;
descriptors 3 and 4 have each been obtained once and closed once. -/
theorem C7_resource_release_witness :
    Event.vTaskDelete ∈ tcp_server_task Buffer.zero (setupOk ++ clientSession ++ acceptFails) ∧
      ((fdState (tcp_server_task Buffer.zero (setupOk ++ clientSession ++ acceptFails))).opened
          = [] ∧
        ∀ fd, (tcp_server_task Buffer.zero (setupOk ++ clientSession ++ acceptFails)).countP
            (closes fd) =
          (tcp_server_task Buffer.zero (setupOk ++ clientSession ++ acceptFails)).countP
            (obtains fd)) ∧
      (tcp_server_task Buffer.zero (setupOk ++ clientSession ++ acceptFails)).countP
        (closes 4) = 1 ∧
      (fdState (tcp_server_task Buffer.zero (setupOk ++ clientSession))).opened = [3] :=
  have h : Event.vTaskDelete ∈
      tcp_server_task Buffer.zero (setupOk ++ clientSession ++ acceptFails) := by decide
  ⟨h, (C7_resource_release Buffer.zero (setupOk ++ clientSession ++ acceptFails)).2 h,
    by decide, by decide⟩

/-! ## Decomposition of executions -/

theorem events_not_blocked {c : Config} {script : List Outcome} {cl : Call} :
    Event.blocked cl ∉ events c script := by
  induction script generalizing c with
  | nil => simp [events]
  | cons o os ih =>
    simp only [events, List.mem_append, not_or]
    exact ⟨step_not_blocked, ih⟩

theorem blocked_last {c : Config} {pre : List Outcome} {cl : Call}
    (h : (run c pre).getLast? = some (.blocked cl)) :
    pendingCall (final c pre).pc = some cl ∧ (run c pre).dropLast = events c pre := by
  unfold run at h ⊢
  unfold pendingEvents at h ⊢
  split at h
  · next cl1 hcl1 =>
    rw [hcl1]
    rw [List.getLast?_append] at h
    simp [Option.or] at h
    simp [h]
  · next hnone =>
    simp only [List.append_nil] at h
    exact absurd (List.mem_of_getLast?_eq_some h) events_not_blocked

theorem run_deleted (buf : Buffer) (script : List Outcome) : run ⟨.deleted, buf⟩ script = [] := by
  induction script with
  | nil => rfl
  | cons o os ih => simpa [run_cons, step] using ih

theorem run_cleanup (l : Int) (buf : Buffer) (script : List Outcome) :
    run ⟨.cleanup l, buf⟩ script = fatalTail l script := by
  cases script with
  | nil => rfl
  | cons o os => simp [run_cons, step, run_deleted, fatalTail]

theorem fatalTail_calls (l : Int) (post : List Outcome) :
    calls (fatalTail l post) = [.close l] := by
  cases post <;> rfl

theorem step_loopInv {c : Config} {o : Outcome} {l : Int} (h : LoopInv l c.pc) :
    LoopInv l (step c o).1.pc := by
  obtain ⟨pc, buf⟩ := c
  cases pc <;> simp only [LoopInv] at h <;> simp only [step, afterInnerLoop, storeEvents] <;>
    (try split_ifs) <;> simp_all [LoopInv]

theorem final_loopInv {c : Config} {script : List Outcome} {l : Int} (h : LoopInv l c.pc) :
    LoopInv l (final c script).pc := by
  induction script generalizing c with
  | nil => exact h
  | cons o os ih => exact ih (step_loopInv h)

theorem task_loopInv (buf : Buffer) (os : Outcome) (rest : List Outcome) :
    LoopInv os.ret (final ⟨.socket, buf⟩ (os :: rest)).pc := by
  simp only [final]
  apply final_loopInv
  simp only [step]
  split_ifs <;> simp [LoopInv]

theorem task_head (buf : Buffer) (os : Outcome) (rest : List Outcome) :
    (tcp_server_task buf (os :: rest)).head? =
      some (.call (.socket AF_INET SOCK_STREAM IPPROTO_IP) os) := by
  simp only [tcp_server_task, run_cons, step]
  split_ifs <;> rfl

theorem final_not_setup {c : Config} {script : List Outcome} (h : c.pc.isSetup = false) :
    (final c script).pc.isSetup = false := by
  induction script generalizing c with
  | nil => exact h
  | cons o os ih =>
    apply ih
    obtain ⟨pc, buf⟩ := c
    cases pc <;> simp only [Pc.isSetup] at h <;> simp only [step, afterInnerLoop, storeEvents] <;>
      (try split_ifs) <;> simp_all [Pc.isSetup]

theorem setup_no_accept {c : Config} {script : List Outcome} (h : c.pc.isSetup = true)
    (hf : (final c script).pc.isSetup = true) (fd : Int) :
    Call.accept fd ∉ calls (events c script) := by
  induction script generalizing c with
  | nil => simp [events, calls]
  | cons o os ih =>
    simp only [final] at hf
    have h1 : (step c o).1.pc.isSetup = true := by
      by_contra hc
      have := @final_not_setup (step c o).1 os (Bool.eq_false_iff.2 hc)
      rw [this] at hf
      cases hf
    simp only [events, calls, List.filterMap_append, List.mem_append, not_or]
    refine ⟨?_, ih h1 hf⟩
    obtain ⟨pc, buf⟩ := c
    cases pc <;> simp only [Pc.isSetup] at h <;> simp only [step, afterInnerLoop, storeEvents] <;>
      (try split_ifs) <;> simp [callOf]
    all_goals simp_all

/-! ## Fatal failures -/

/-- C5 (fatal setup and accept failures): if `socket` fails the whole trace is that call,
its log and `vTaskDelete`; if `bind` or `listen` fails no `accept` is ever called; if an
`accept` fails no further `accept` or `recv` is called.  After a failed `bind`, `listen`
or `accept` the only call still made is the `close` of the listening socket, and the task
deletes itself as soon as it returns. -/
theorem C5_fatal_failures (rx_buffer : Buffer) :
    (∀ o post, o.ret < 0 →
      tcp_server_task rx_buffer (o :: post) =
        [.call (.socket AF_INET SOCK_STREAM IPPROTO_IP) o, .log .unable_to_create_socket,
          .vTaskDelete]) ∧
    (∀ pre fd addr o post,
      (tcp_server_task rx_buffer pre).getLast? = some (.blocked (.bind fd addr)) → o.ret ≠ 0 →
      tcp_server_task rx_buffer (pre ++ o :: post) =
          (tcp_server_task rx_buffer pre).dropLast ++
            [.call (.bind fd addr) o, .log .unable_to_bind] ++ fatalTail fd post ∧
        ∀ fd1, Call.accept fd1 ∉ calls (tcp_server_task rx_buffer (pre ++ o :: post))) ∧
    (∀ pre fd backlog o post,
      (tcp_server_task rx_buffer pre).getLast? = some (.blocked (.listen fd backlog)) →
      o.ret ≠ 0 →
      tcp_server_task rx_buffer (pre ++ o :: post) =
          (tcp_server_task rx_buffer pre).dropLast ++
            [.call (.listen fd backlog) o, .log .listen_error] ++ fatalTail fd post ∧
        ∀ fd1, Call.accept fd1 ∉ calls (tcp_server_task rx_buffer (pre ++ o :: post))) ∧
    (∀ pre fd o post,
      (tcp_server_task rx_buffer pre).getLast? = some (.blocked (.accept fd)) → o.ret < 0 →
      tcp_server_task rx_buffer (pre ++ o :: post) =
          (tcp_server_task rx_buffer pre).dropLast ++
            [.call (.accept fd) o, .log .unable_to_accept] ++ fatalTail fd post ∧
        calls ([.call (.accept fd) o, .log .unable_to_accept] ++ fatalTail fd post) =
          [.accept fd, .close fd]) := by
  refine ⟨?_, ?_, ?_, ?_⟩
  · intro o post ho
    simp [tcp_server_task, run_cons, step, ho, run_deleted]
  · intro pre fd addr o post hlast ho
    obtain ⟨hpc, hdrop⟩ := blocked_last hlast
    have hdrop : (tcp_server_task rx_buffer pre).dropLast = events ⟨.socket, rx_buffer⟩ pre :=
      hdrop
    have hrun : tcp_server_task rx_buffer (pre ++ o :: post) =
        (tcp_server_task rx_buffer pre).dropLast ++
          [.call (.bind fd addr) o, .log .unable_to_bind] ++ fatalTail fd post := by
      rw [hdrop]
      simp only [tcp_server_task, run_append]
      generalize final ⟨.socket, rx_buffer⟩ pre = cf at hpc
      obtain ⟨pc, buf⟩ := cf
      cases pc <;> simp [pendingCall] at hpc
      obtain ⟨rfl, rfl⟩ := hpc
      simp [run_cons, step, ho, run_cleanup]
    refine ⟨hrun, fun fd1 => ?_⟩
    rw [hrun, hdrop]
    have hsetup : (final ⟨.socket, rx_buffer⟩ pre).pc.isSetup = true := by
      generalize final ⟨.socket, rx_buffer⟩ pre = cf at hpc
      obtain ⟨pc, buf⟩ := cf
      cases pc <;> simp [pendingCall] at hpc
      rfl
    have := @setup_no_accept ⟨.socket, rx_buffer⟩ pre rfl hsetup fd1
    simp only [calls, List.filterMap_append, List.mem_append, not_or] at this ⊢
    refine ⟨⟨this, by simp [callOf]⟩, ?_⟩
    have hc := fatalTail_calls fd post
    simp only [calls] at hc
    rw [hc]
    simp
  · intro pre fd backlog o post hlast ho
    obtain ⟨hpc, hdrop⟩ := blocked_last hlast
    have hdrop : (tcp_server_task rx_buffer pre).dropLast = events ⟨.socket, rx_buffer⟩ pre :=
      hdrop
    have hrun : tcp_server_task rx_buffer (pre ++ o :: post) =
        (tcp_server_task rx_buffer pre).dropLast ++
          [.call (.listen fd backlog) o, .log .listen_error] ++ fatalTail fd post := by
      rw [hdrop]
      simp only [tcp_server_task, run_append]
      generalize final ⟨.socket, rx_buffer⟩ pre = cf at hpc
      obtain ⟨pc, buf⟩ := cf
      cases pc <;> simp [pendingCall] at hpc
      obtain ⟨rfl, rfl⟩ := hpc
      simp [run_cons, step, ho, run_cleanup]
    refine ⟨hrun, fun fd1 => ?_⟩
    rw [hrun, hdrop]
    have hsetup : (final ⟨.socket, rx_buffer⟩ pre).pc.isSetup = true := by
      generalize final ⟨.socket, rx_buffer⟩ pre = cf at hpc
      obtain ⟨pc, buf⟩ := cf
      cases pc <;> simp [pendingCall] at hpc
      rfl
    have := @setup_no_accept ⟨.socket, rx_buffer⟩ pre rfl hsetup fd1
    simp only [calls, List.filterMap_append, List.mem_append, not_or] at this ⊢
    refine ⟨⟨this, by simp [callOf]⟩, ?_⟩
    have hc := fatalTail_calls fd post
    simp only [calls] at hc
    rw [hc]
    simp
  · intro pre fd o post hlast ho
    obtain ⟨hpc, hdrop⟩ := blocked_last hlast
    have hdrop : (tcp_server_task rx_buffer pre).dropLast = events ⟨.socket, rx_buffer⟩ pre :=
      hdrop
    constructor
    · rw [hdrop]
      simp only [tcp_server_task, run_append]
      generalize final ⟨.socket, rx_buffer⟩ pre = cf at hpc
      obtain ⟨pc, buf⟩ := cf
      cases pc <;> simp [pendingCall] at hpc
      subst hpc
      simp [run_cons, step, ho, run_cleanup]
    · cases post <;> rfl

set_option maxRecDepth 100000 in
/-- Witness for C5: `socket` fails; `bind` fails after a successful
`socket`; `listen` fails; `accept` fails after a client session. -/
theorem C5_fatal_failures_witness :
    (tcp_server_task Buffer.zero [⟨-1, []⟩] =
      [.call (.socket AF_INET SOCK_STREAM IPPROTO_IP) ⟨-1, []⟩, .log .unable_to_create_socket,
        .vTaskDelete]) ∧
    (tcp_server_task Buffer.zero ([⟨3, []⟩, ⟨0, []⟩] ++ ⟨-1, []⟩ :: [⟨0, []⟩]) =
        (tcp_server_task Buffer.zero [⟨3, []⟩, ⟨0, []⟩]).dropLast ++
          [.call (.bind 3 dest_addr) ⟨-1, []⟩, .log .unable_to_bind] ++ fatalTail 3 [⟨0, []⟩] ∧
      ∀ fd1, Call.accept fd1 ∉
        calls (tcp_server_task Buffer.zero ([⟨3, []⟩, ⟨0, []⟩] ++ ⟨-1, []⟩ :: [⟨0, []⟩]))) ∧
    (tcp_server_task Buffer.zero ([⟨3, []⟩, ⟨0, []⟩, ⟨0, []⟩] ++ ⟨-1, []⟩ :: []) =
        (tcp_server_task Buffer.zero [⟨3, []⟩, ⟨0, []⟩, ⟨0, []⟩]).dropLast ++
          [.call (.listen 3 1) ⟨-1, []⟩, .log .listen_error] ++ fatalTail 3 [] ∧
      ∀ fd1, Call.accept fd1 ∉
        calls (tcp_server_task Buffer.zero ([⟨3, []⟩, ⟨0, []⟩, ⟨0, []⟩] ++ ⟨-1, []⟩ :: []))) ∧
    (tcp_server_task Buffer.zero ((setupOk ++ clientSession) ++ ⟨-1, []⟩ :: [⟨0, []⟩]) =
        (tcp_server_task Buffer.zero (setupOk ++ clientSession)).dropLast ++
          [.call (.accept 3) ⟨-1, []⟩, .log .unable_to_accept] ++ fatalTail 3 [⟨0, []⟩] ∧
      calls ([.call (.accept 3) ⟨-1, []⟩, .log .unable_to_accept] ++ fatalTail 3 [⟨0, []⟩]) =
        [.accept 3, .close 3]) :=
  ⟨(C5_fatal_failures Buffer.zero).1 ⟨-1, []⟩ [] (by decide),
    (C5_fatal_failures Buffer.zero).2.1 [⟨3, []⟩, ⟨0, []⟩] 3 dest_addr ⟨-1, []⟩ [⟨0, []⟩]
      (by decide) (by decide),
    (C5_fatal_failures Buffer.zero).2.2.1 [⟨3, []⟩, ⟨0, []⟩, ⟨0, []⟩] 3 1 ⟨-1, []⟩ []
      (by decide) (by decide),
    (C5_fatal_failures Buffer.zero).2.2.2 (setupOk ++ clientSession) 3 ⟨-1, []⟩ [⟨0, []⟩]
      (by decide) (by decide)⟩

/-! ## Connection-level failures -/

theorem run_accept_head (l : Int) (buf : Buffer) (post : List Outcome) :
    (run ⟨.accept l, buf⟩ post).head? = some (.blocked (.accept l)) ∨
      ∃ oa, (run ⟨.accept l, buf⟩ post).head? = some (.call (.accept l) oa) := by
  cases post with
  | nil => exact Or.inl rfl
  | cons oa os =>
    refine Or.inr ⟨oa, ?_⟩
    simp only [run_cons, step]
    split_ifs <;> rfl

theorem run_teardown (l sock : Int) (buf : Buffer) (o o1 o2 : Outcome) (post : List Outcome)
    (hsock : 0 ≤ sock) (ho : o.ret ≤ 0) :
    run ⟨.recv l sock, buf⟩ (o :: o1 :: o2 :: post) =
      teardown sock (BUFFER_SIZE - 1) 0 o o1 o2 ++ run ⟨.accept l, buf.store o.data⟩ post := by
  have hs : sock ≠ -1 := by omega
  by_cases hneg : o.ret < 0
  · simp [run_cons, step, afterInnerLoop, hneg, hs, teardown]
  · have h0 : o.ret = 0 := by omega
    simp [run_cons, step, afterInnerLoop, h0, hs, teardown]

/-- C4 (connection-level failures are local): whenever the task is blocked in `recv` on
the connection socket and that `recv` returns 0 or a negative value, the teardown is the
same in both cases (only the log line differs): `shutdown` then `close` of that socket;
whatever these two return, the next call is `accept` on the socket that `socket` returned
at the start, which is still open, and the task has not deleted itself. -/
theorem C4_connection_failures_local (rx_buffer : Buffer) (pre : List Outcome) (sock : Int)
    (n : Nat) (fl : Int) (o o1 o2 : Outcome) (post : List Outcome)
    (hblocked : (tcp_server_task rx_buffer pre).getLast? = some (.blocked (.recv sock n fl)))
    (hret : o.ret ≤ 0) :
    ∃ os rest,
      (tcp_server_task rx_buffer pre).head? =
        some (.call (.socket AF_INET SOCK_STREAM IPPROTO_IP) os) ∧
      tcp_server_task rx_buffer (pre ++ o :: o1 :: o2 :: post) =
        (tcp_server_task rx_buffer pre).dropLast ++ teardown sock n fl o o1 o2 ++ rest ∧
      (rest.head? = some (.blocked (.accept os.ret)) ∨
        ∃ oa, rest.head? = some (.call (.accept os.ret) oa)) ∧
      os.ret ∈ (fdState ((tcp_server_task rx_buffer pre).dropLast ++
        teardown sock n fl o o1 o2)).opened ∧
      Event.vTaskDelete ∉ (tcp_server_task rx_buffer pre).dropLast ++
        teardown sock n fl o o1 o2 := by
  obtain ⟨hpc, hdrop⟩ := blocked_last hblocked
  have hdrop : (tcp_server_task rx_buffer pre).dropLast = events ⟨.socket, rx_buffer⟩ pre :=
    hdrop
  cases pre with
  | nil => simp [final, pendingCall] at hpc
  | cons os rest0 =>
    have hinv := task_loopInv rx_buffer os rest0
    have hfd := events_fd ⟨.socket, rx_buffer⟩ (os :: rest0) ⟨[], []⟩ rfl
    have hdel : Event.vTaskDelete ∉ events ⟨.socket, rx_buffer⟩ (os :: rest0) := by
      intro hv
      have := events_vTaskDelete hv
      rw [this] at hpc
      simp [pendingCall] at hpc
    have hrun : tcp_server_task rx_buffer ((os :: rest0) ++ o :: o1 :: o2 :: post) =
        events ⟨.socket, rx_buffer⟩ (os :: rest0) ++
          run (final ⟨.socket, rx_buffer⟩ (os :: rest0)) (o :: o1 :: o2 :: post) :=
      run_append _ _ _
    generalize final ⟨.socket, rx_buffer⟩ (os :: rest0) = cf at hpc hinv hfd hrun
    obtain ⟨pc, buf⟩ := cf
    cases pc <;> simp [pendingCall] at hpc
    obtain ⟨rfl, rfl, rfl⟩ := hpc
    simp only [LoopInv] at hinv
    obtain ⟨rfl, hsock⟩ := hinv
    simp only [FdInv] at hfd
    refine ⟨os, run ⟨.accept os.ret, buf.store o.data⟩ post, task_head _ _ _, ?_,
      run_accept_head _ _ _, ?_, ?_⟩
    · rw [hrun, hdrop, run_teardown _ _ _ _ _ _ _ hsock hret, List.append_assoc]
    · rw [hdrop]
      simp only [fdState, List.foldl_append, hfd.1]
      simp [teardown, fdStep]
    · rw [hdrop]
      simp only [List.mem_append, not_or]
      refine ⟨hdel, ?_⟩
      simp [teardown]

set_option maxRecDepth 100000 in
/-- Witness for C4: the client of the sample session closes
(`recv` returns 0), `shutdown` and `close` both fail with -1, and the task is blocked in
the next `accept` on the listening socket 3. -/
theorem C4_connection_failures_local_witness :
    (tcp_server_task Buffer.zero (setupOk ++ [⟨4, []⟩, ⟨6, [36, 71, 80, 44, 13, 10]⟩])).getLast?
        = some (.blocked (.recv 4 1023 0)) ∧
      ∃ os rest,
        (tcp_server_task Buffer.zero
            (setupOk ++ [⟨4, []⟩, ⟨6, [36, 71, 80, 44, 13, 10]⟩])).head? =
          some (.call (.socket AF_INET SOCK_STREAM IPPROTO_IP) os) ∧
        tcp_server_task Buffer.zero ((setupOk ++ [⟨4, []⟩, ⟨6, [36, 71, 80, 44, 13, 10]⟩]) ++
            ⟨0, []⟩ :: ⟨-1, []⟩ :: ⟨-1, []⟩ :: []) =
          (tcp_server_task Buffer.zero
              (setupOk ++ [⟨4, []⟩, ⟨6, [36, 71, 80, 44, 13, 10]⟩])).dropLast ++
            teardown 4 1023 0 ⟨0, []⟩ ⟨-1, []⟩ ⟨-1, []⟩ ++ rest ∧
        (rest.head? = some (.blocked (.accept os.ret)) ∨
          ∃ oa, rest.head? = some (.call (.accept os.ret) oa)) ∧
        os.ret ∈ (fdState ((tcp_server_task Buffer.zero
            (setupOk ++ [⟨4, []⟩, ⟨6, [36, 71, 80, 44, 13, 10]⟩])).dropLast ++
          teardown 4 1023 0 ⟨0, []⟩ ⟨-1, []⟩ ⟨-1, []⟩)).opened ∧
        Event.vTaskDelete ∉ (tcp_server_task Buffer.zero
            (setupOk ++ [⟨4, []⟩, ⟨6, [36, 71, 80, 44, 13, 10]⟩])).dropLast ++
          teardown 4 1023 0 ⟨0, []⟩ ⟨-1, []⟩ ⟨-1, []⟩ :=
  have h : (tcp_server_task Buffer.zero
      (setupOk ++ [⟨4, []⟩, ⟨6, [36, 71, 80, 44, 13, 10]⟩])).getLast? =
        some (.blocked (.recv 4 1023 0)) := by decide
  ⟨h, C4_connection_failures_local Buffer.zero _ 4 1023 0 ⟨0, []⟩ ⟨-1, []⟩ ⟨-1, []⟩ [] h
    (by decide)⟩

/-! ## Setup of the listening endpoint -/

theorem step_not_setup {c : Config} {o : Outcome} (h : c.pc.isSetup = false) :
    (step c o).1.pc.isSetup = false := by
  obtain ⟨pc, buf⟩ := c
  cases pc <;> simp only [Pc.isSetup] at h <;> simp only [step, afterInnerLoop, storeEvents] <;>
    (try split_ifs) <;> simp_all [Pc.isSetup]

theorem step_laterCall {c : Config} {o : Outcome} {l : Int} (h : LoopInv l c.pc)
    (hs : c.pc.isSetup = false) : ∀ cl ∈ calls (step c o).2, LaterCall l cl := by
  obtain ⟨pc, buf⟩ := c
  cases pc <;> simp only [Pc.isSetup] at hs <;> simp only [LoopInv] at h <;>
    simp only [step, afterInnerLoop, storeEvents] <;> (try split_ifs) <;>
    simp_all [calls, callOf, LaterCall]

theorem run_laterCall {c : Config} {script : List Outcome} {l : Int} (h : LoopInv l c.pc)
    (hs : c.pc.isSetup = false) : ∀ cl ∈ calls (run c script), LaterCall l cl := by
  induction script generalizing c with
  | nil =>
    obtain ⟨pc, buf⟩ := c
    rw [run_nil]
    cases pc <;> simp only [Pc.isSetup] at hs <;> simp only [LoopInv] at h <;>
      simp_all [pendingEvents, pendingCall, calls, callOf, LaterCall]
  | cons o os ih =>
    intro cl hcl
    rw [run_cons] at hcl
    simp only [calls, List.filterMap_append, List.mem_append] at hcl
    rcases hcl with hcl | hcl
    · exact step_laterCall h hs cl hcl
    · exact ih (step_loopInv h) (step_not_setup hs) cl hcl

theorem calls_run_accept (l : Int) (buf : Buffer) (script : List Outcome) :
    ∃ rest, calls (run ⟨.accept l, buf⟩ script) = .accept l :: rest ∧
      ∀ cl ∈ rest, LaterCall l cl := by
  cases script with
  | nil => exact ⟨[], rfl, by simp⟩
  | cons oa os =>
    refine ⟨calls (run (step ⟨.accept l, buf⟩ oa).1 os), ?_, ?_⟩
    · rw [run_cons]
      simp only [calls, List.filterMap_append, step]
      split_ifs <;> rfl
    · apply run_laterCall
      · simp only [step]
        split_ifs <;> simp [LoopInv]
        omega
      · simp only [step]
        split_ifs <;> rfl

/-- C6 (listening-endpoint setup): in every execution that reaches an `accept`, the calls
made are, in this order, `socket` for a TCP stream socket, `setsockopt` enabling
`SO_REUSEADDR` with value 1 on the descriptor `socket` returned, `bind` of that descriptor
to `INADDR_ANY` port 2000, `listen` on it with backlog 1, and `accept` on it; every later
call is an `accept` on that same descriptor or a `recv`, `shutdown` or `close`, so no
second listening socket is created. -/
theorem C6_listening_setup (rx_buffer : Buffer) (script : List Outcome) (fd : Int)
    (h : Call.accept fd ∈ calls (tcp_server_task rx_buffer script)) :
    ∃ o1 rest,
      (tcp_server_task rx_buffer script).head? =
        some (.call (.socket AF_INET SOCK_STREAM IPPROTO_IP) o1) ∧
      calls (tcp_server_task rx_buffer script) =
        [.socket AF_INET SOCK_STREAM IPPROTO_IP,
          .setsockopt o1.ret SOL_SOCKET SO_REUSEADDR 1,
          .bind o1.ret ⟨AF_INET, 2000, INADDR_ANY⟩,
          .listen o1.ret 1,
          .accept o1.ret] ++ rest ∧
      fd = o1.ret ∧
      ∀ cl ∈ rest, LaterCall o1.ret cl := by
  rcases script with _ | ⟨o1, s1⟩
  · simp [tcp_server_task, run_nil, pendingEvents, pendingCall, calls, callOf] at h
  by_cases h1 : o1.ret < 0
  · simp [tcp_server_task, run_cons, step, h1, run_deleted, calls, callOf] at h
  rcases s1 with _ | ⟨o2, s2⟩
  · simp [tcp_server_task, run_cons, run_nil, step, h1, pendingEvents, pendingCall, calls,
      callOf] at h
  rcases s2 with _ | ⟨o3, s3⟩
  · simp [tcp_server_task, run_cons, run_nil, step, h1, pendingEvents, pendingCall, calls,
      callOf] at h
  by_cases h3 : o3.ret = 0
  swap
  · have hc := fatalTail_calls o1.ret s3
    simp only [calls] at hc
    simp [tcp_server_task, run_cons, step, h1, h3, run_cleanup, calls, callOf, hc] at h
  rcases s3 with _ | ⟨o4, s4⟩
  · simp [tcp_server_task, run_cons, run_nil, step, h1, h3, pendingEvents, pendingCall, calls,
      callOf] at h
  by_cases h4 : o4.ret = 0
  swap
  · have hc := fatalTail_calls o1.ret s4
    simp only [calls] at hc
    simp [tcp_server_task, run_cons, step, h1, h3, h4, run_cleanup, calls, callOf, hc] at h
  obtain ⟨rest, hrest, hlater⟩ := calls_run_accept o1.ret rx_buffer s4
  have hcalls : calls (tcp_server_task rx_buffer (o1 :: o2 :: o3 :: o4 :: s4)) =
      [.socket AF_INET SOCK_STREAM IPPROTO_IP,
        .setsockopt o1.ret SOL_SOCKET SO_REUSEADDR 1,
        .bind o1.ret ⟨AF_INET, 2000, INADDR_ANY⟩,
        .listen o1.ret 1,
        .accept o1.ret] ++ rest := by
    simp only [calls] at hrest
    simp [tcp_server_task, run_cons, step, h1, h3, h4, calls, callOf, hrest]
    rfl
  refine ⟨o1, rest, task_head _ _ _, hcalls, ?_, hlater⟩
  rw [hcalls, List.mem_append] at h
  rcases h with h | h
  · simpa using h
  · exact hlater _ h

set_option maxRecDepth 100000 in
/-- Witness for C6: the sample execution with two clients accepts on descriptor 3, the
one `socket` returned. -/
theorem C6_listening_setup_witness :
    Call.accept 3 ∈ calls (tcp_server_task Buffer.zero (setupOk ++ reuseSession)) ∧
      ∃ o1 rest,
        (tcp_server_task Buffer.zero (setupOk ++ reuseSession)).head? =
          some (.call (.socket AF_INET SOCK_STREAM IPPROTO_IP) o1) ∧
        calls (tcp_server_task Buffer.zero (setupOk ++ reuseSession)) =
          [.socket AF_INET SOCK_STREAM IPPROTO_IP,
            .setsockopt o1.ret SOL_SOCKET SO_REUSEADDR 1,
            .bind o1.ret ⟨AF_INET, 2000, INADDR_ANY⟩,
            .listen o1.ret 1,
            .accept o1.ret] ++ rest ∧
        (3 : Int) = o1.ret ∧
        ∀ cl ∈ rest, LaterCall o1.ret cl :=
  have h : Call.accept 3 ∈ calls (tcp_server_task Buffer.zero (setupOk ++ reuseSession)) := by
    decide
  ⟨h, C6_listening_setup Buffer.zero (setupOk ++ reuseSession) 3 h⟩

end TcpServer
